import Mathlib

/-!
# go-dc-wallet, package `web`: request authentication and address allocation

A shallow embedding of `src/web/web.go`.  The two gin handlers `productReq`
and `postAddress` are pure functions over an explicit `World` (the database
together with a log of the storage calls made so far) and an explicit gin
`Context`.  Storage errors are injected through a `Faults` record.
-/

namespace Web

/-! ## JSON values and request bodies -/

/-- A JSON value as `encoding/json` sees it.  Numbers keep their literal text,
arrays and objects nested inside the top-level object keep their raw text. -/
inductive JVal where
  | null
  | bool (b : Bool)
  | num (lit : String)
  | str (s : String)
  | composite (raw : String)
  deriving DecidableEq

/-- Members of a JSON object in document order (duplicate keys possible). -/
abbrev Members := List (String × JVal)

/-- A request body after lexing: `members` are the members of the leading JSON
object (`none` when the body does not start with a well-formed JSON object),
`trailing` says that more data follows that first value.  The streaming decoder
used by gin ignores trailing data, `json.Unmarshal` refuses it. -/
structure Body where
  members : Option Members
  trailing : Bool
  deriving DecidableEq

/-- A Go `map[string]interface{}` (`gin.H`): an association list with pairwise
different keys. -/
abbrev GinH := List (String × JVal)

/-- Go map assignment `m[k] = v`. -/
def mapSet : GinH → String → JVal → GinH
  | [], k, v => [(k, v)]
  | (k0, v0) :: rest, k, v => if k0 = k then (k0, v) :: rest else (k0, v0) :: mapSet rest k v

/-- `json.Unmarshal(body, &oldObj)` with `oldObj` a `gin.H`: fails on a body
that is not exactly one JSON object, a repeated key keeps its last value. -/
def jsonUnmarshal (body : Body) : Option GinH :=
  if body.trailing then none
  else match body.members with
    | none => none
    | some ms => some (ms.foldl (fun m kv => mapSet m kv.1 kv.2) [])

/-! ## Struct binding (gin `ShouldBindBodyWith` with `binding.JSON`) -/

/-- The struct tag of one field of a request struct, transcribed from the source:
the JSON name, the constraints under the tag key `binding` and the constraints
under the tag key `validate`. -/
structure FieldTag where
  json : String
  binding : List String
  validate : List String
  deriving DecidableEq

/-- Case folding of one rune as `encoding/json` applies it when it matches an
object key against a field name: ASCII upper case, the long s (U+017F) and the
Kelvin sign (U+212A) fold to the lower-case ASCII letter. -/
def foldRune (c : Char) : Char :=
  if 65 ≤ c.toNat ∧ c.toNat ≤ 90 then Char.ofNat (c.toNat + 32)
  else if c.toNat = 0x17F then 's'
  else if c.toNat = 0x212A then 'k'
  else c

/-- Does the object key `key` select the field named `field` (a lower-case
ASCII name)?  `encoding/json` matches case-insensitively. -/
def equalFold (key field : String) : Bool :=
  key.data.map foldRune == field.data

/-- Store the string `v` into every field that the key selects. -/
def storeMember (tags : List FieldTag) (key v : String) (vals : List String) : List String :=
  List.zipWith (fun t old => if equalFold key t.json then v else old) tags vals

/-- Decoding a JSON object into a struct whose fields are all Go strings; the
struct is the list of its field values, in the order of `tags`.  A key that
selects no field is skipped, `null` leaves the field alone, any other
non-string value is an `UnmarshalTypeError` (`none`). -/
def jsonDecodeStruct (tags : List FieldTag) : Members → List String → Option (List String)
  | [], vals => some vals
  | (k, v) :: rest, vals =>
    if tags.any (fun t => equalFold k t.json) then
      match v with
      | JVal.str s => jsonDecodeStruct tags rest (storeMember tags k s vals)
      | JVal.null => jsonDecodeStruct tags rest vals
      | _ => none
    else jsonDecodeStruct tags rest vals

/-- The struct validation gin runs after decoding.  gin configures its
validator with the tag name `binding`, so only the constraints written under
`binding` are read; on a string field `required` demands a non-empty value.
Constraints written under the tag key `validate` are not consulted. -/
def ginValidate (tags : List FieldTag) (vals : List String) : Bool :=
  (List.zip tags vals).all (fun tv => !(tv.1.binding.contains "required") || tv.2 != "")

/-! ## Responses and the gin context -/

/-- The error codes of `hcommon` that the handlers answer with.  `ErrorBind` is
the validation error written by `hcommon.GinFillBindError`. -/
inductive ErrorCode where
  | ErrorSuccess
  | ErrorInternal
  | ErrorNoProduct
  | ErrorIPLimit
  | ErrorSignWrong
  | ErrorNonceRepeat
  | ErrorNoFreeAddress
  | ErrorBind
  deriving DecidableEq

/-- The JSON envelope written by `c.JSON`: the error code and, on success of
`postAddress` only, the `address` field. -/
structure Response where
  error : ErrorCode
  address : Option String
  deriving DecidableEq

/-- The part of `gin.Context` the handlers touch. -/
structure Context where
  /-- What reading `c.Request.Body` yields, `none` for a read error. -/
  requestBody : Option Body
  /-- The value kept under `gin.BodyBytesKey`. -/
  bodyBytes : Option Body
  /-- The result of `c.ClientIP()`. -/
  clientIP : String
  /-- The value kept under the key `"product_id"`. -/
  productID : Option Int
  /-- Set by `c.Abort()`: the handlers that follow are skipped. -/
  aborted : Bool
  /-- The envelopes written with `c.JSON`, oldest first. -/
  written : List Response
  deriving DecidableEq

/-- `c.JSON(http.StatusOK, gin.H{"error": code, ...})` without an address. -/
def Context.JSON (c : Context) (code : ErrorCode) : Context :=
  { c with written := c.written ++ [⟨code, none⟩] }

/-- `c.JSON` on the success path of `postAddress`, with the `address` field. -/
def Context.JSONAddress (c : Context) (address : String) : Context :=
  { c with written := c.written ++ [⟨ErrorCode.ErrorSuccess, some address⟩] }

/-- `c.Abort()`. -/
def Context.Abort (c : Context) : Context :=
  { c with aborted := true }

/-- `c.GetInt64("product_id")`: zero when the key is not set. -/
def Context.GetInt64ProductID (c : Context) : Int :=
  c.productID.getD 0

/-- Modelled from the spec: `hcommon.GinFillBindError` is not in the source
tree; per the spec malformed input is answered with a validation error
envelope. -/
def GinFillBindError (c : Context) : Context :=
  c.JSON ErrorCode.ErrorBind

/-- The body bytes as gin `ShouldBindBodyWith` and web.go lines 74-91 obtain
them: the value cached under `gin.BodyBytesKey`, else a fresh read of the
request body that is then cached; `none` is the read error. -/
def bodyOf (c : Context) : Option Body × Context :=
  match c.bodyBytes with
  | some b => (some b, c)
  | none =>
    match c.requestBody with
    | none => (none, c)
    | some b => (some b, { c with bodyBytes := some b })

/-- gin `ShouldBindBodyWith(&req, binding.JSON)`: take the body cached under
`gin.BodyBytesKey` or read and cache it, decode it into the struct and validate
the struct.  `none` is a non-nil `err`. -/
def ShouldBindBodyWith (c : Context) (tags : List FieldTag) : Option (List String) × Context :=
  match bodyOf c with
  | (none, c1) => (none, c1)
  | (some b, c1) =>
    match b.members with
    | none => (none, c1)
    | some ms =>
      match jsonDecodeStruct tags ms (tags.map (fun _ => "")) with
      | none => (none, c1)
      | some vals => if ginValidate tags vals then (some vals, c1) else (none, c1)

/-! ## Storage -/

/-- Row of `t_product`. -/
structure DBTProduct where
  ID : Int
  AppName : String
  AppSk : String
  WhitelistIP : String
  deriving DecidableEq

/-- Row of `t_product_nonce`. -/
structure DBTProductNonce where
  C : String
  CreateTime : Int
  deriving DecidableEq

/-- Row of `t_address_key`. -/
structure DBTAddressKey where
  ID : Int
  Address : String
  UseTag : Int
  deriving DecidableEq

/-- The committed database state. -/
structure DB where
  tProduct : List DBTProduct
  tProductNonce : List DBTProductNonce
  tAddressKey : List DBTAddressKey
  deriving DecidableEq

/-- The storage calls a handler can make. -/
inductive StorageOp where
  | GetProduct (name : String)
  | CreateNonce (c : String)
  | BeginTx
  | GetFreeAddress
  | UpdateUseTag (id tag : Int)
  | Commit (ok : Bool)
  | Rollback
  deriving DecidableEq

/-- Storage failures injected into one request: each flag makes the named call
return a non-nil error; `rowVanished` makes the update match no row. -/
structure Faults where
  getProduct : Bool
  createNonce : Bool
  beginTx : Bool
  getFree : Bool
  updateUseTag : Bool
  rowVanished : Bool
  commit : Bool
  deriving DecidableEq

/-- No storage failure. -/
def Faults.none : Faults := ⟨false, false, false, false, false, false, false⟩

/-- The database and the log of storage calls made so far, oldest first. -/
structure World where
  db : DB
  log : List StorageOp
  deriving DecidableEq

/-- Append one storage call to the log. -/
def World.record (w : World) (op : StorageOp) : World :=
  { w with log := w.log ++ [op] }

/-- An open transaction: its private view of the database. -/
structure Tx where
  view : DB
  deriving DecidableEq

/-- Modelled from the spec: `app.SQLGetTProductColByName` is not in the source
tree.  ProductDirectory: read-only lookup of the application by name; the outer
`none` is a storage error, the inner `none` an unknown application. -/
def SQLGetTProductColByName (f : Faults) (w : World) (name : String) :
    Option (Option DBTProduct) × World :=
  let w1 := w.record (StorageOp.GetProduct name)
  if f.getProduct then (none, w1)
  else (some (w.db.tProduct.find? (fun p => p.AppName == name)), w1)

/-- Modelled from the spec: `model.SQLCreateIgnoreTProductNonce` is not in the
source tree.  NonceGuard: an insert under a uniqueness constraint on the nonce
value; the count is 1 when the row was inserted, 0 when a row with that nonce
exists already (nothing is written then); `none` is any other failure. -/
def SQLCreateIgnoreTProductNonce (f : Faults) (w : World) (row : DBTProductNonce) :
    Option Int × World :=
  let w1 := w.record (StorageOp.CreateNonce row.C)
  if f.createNonce then (none, w1)
  else if w.db.tProductNonce.any (fun r => r.C == row.C) then (some 0, w1)
  else (some 1, { w1 with db := { w.db with tProductNonce := w.db.tProductNonce ++ [row] } })

/-- `app.DbCon.BeginTxx`: open a transaction on the committed state. -/
def BeginTxx (f : Faults) (w : World) : Option Tx × World :=
  let w1 := w.record StorageOp.BeginTx
  if f.beginTx then (none, w1) else (some ⟨w.db⟩, w1)

/-- Modelled from the spec: `app.SQLGetTAddressKeyColFreeForUpdate` is not in
the source tree.  Select one pool row whose claim-tag is unset (zero), under a
row lock; the inner `none` means no such row exists. -/
def SQLGetTAddressKeyColFreeForUpdate (f : Faults) (tx : Tx) (w : World) :
    Option (Option DBTAddressKey) × World :=
  let w1 := w.record StorageOp.GetFreeAddress
  if f.getFree then (none, w1)
  else (some (tx.view.tAddressKey.find? (fun r => r.UseTag == 0)), w1)

/-- Modelled from the spec: `app.SQLUpdateTAddressKeyUseTag` is not in the
source tree.  Set the claim-tag of the row with the given id inside the
transaction and return the number of rows updated. -/
def SQLUpdateTAddressKeyUseTag (f : Faults) (tx : Tx) (w : World) (id useTag : Int) :
    Option (Int × Tx) × World :=
  let w1 := w.record (StorageOp.UpdateUseTag id useTag)
  if f.updateUseTag then (none, w1)
  else if f.rowVanished then (some (0, tx), w1)
  else
    (some (((tx.view.tAddressKey.filter (fun r => r.ID == id)).length : Int),
      ⟨{ tx.view with tAddressKey :=
          tx.view.tAddressKey.map (fun r => if r.ID = id then { r with UseTag := useTag } else r) }⟩),
     w1)

/-- `tx.Commit()`: on success the view of the transaction becomes the committed
state; on failure nothing is applied. -/
def Commit (f : Faults) (tx : Tx) (w : World) : Bool × World :=
  if f.commit then (false, w.record (StorageOp.Commit false))
  else (true, { (w.record (StorageOp.Commit true)) with db := tx.view })

/-- `tx.Rollback()`: the view of the transaction is dropped. -/
def Rollback (w : World) : World :=
  w.record StorageOp.Rollback

/-! ## `strings.Contains` -/

/-- Does `sub` occur in `s` as a contiguous run? -/
def containsChars : List Char → List Char → Bool
  | [], sub => sub.isPrefixOf []
  | c :: s, sub => sub.isPrefixOf (c :: s) || containsChars s sub

/-- Go `strings.Contains(s, substr)`. -/
def stringsContains (s substr : String) : Bool :=
  containsChars s.data substr.data

/-! ## The handlers -/

/-- What a handler gets from outside: the signing function `hcommon.GetSign`
(not in the source tree, kept abstract), the storage failures of this request
and the clock reading `time.Now().Unix()`. -/
structure Env where
  GetSign : String → GinH → String
  faults : Faults
  now : Int

/-- The struct tags of `req` in `productReq` (web.go lines 23-27). -/
def productReqTags : List FieldTag :=
  [ ⟨"app_name", ["required"], []⟩,
    ⟨"nonce", ["required"], ["max=40"]⟩,
    ⟨"sign", ["required"], []⟩ ]

/-- The struct tags of `req` in `postAddress` (web.go lines 146-149). -/
def postAddressTags : List FieldTag :=
  [ ⟨"app_name", ["required"], []⟩,
    ⟨"symbol", ["required"], ["oneof=eth"]⟩ ]

/-- The loop of web.go lines 102-107: copy every entry of `oldObj` whose key is
not `"sign"` into a fresh map. -/
def checkObjOf (oldObj : GinH) : GinH :=
  oldObj.foldl (fun checkObj kv => if kv.1 ≠ "sign" then mapSet checkObj kv.1 kv.2 else checkObj) []

/-- The anonymous struct `req` of `productReq` (web.go lines 23-27). -/
structure ProductReqArgs where
  AppName : String
  Nonce : String
  Sign : String
  deriving DecidableEq

/-- The call `c.ShouldBindBodyWith(&req, binding.JSON)` of `productReq` (web.go
line 28). -/
def bindProductReq (c : Context) : Option ProductReqArgs × Context :=
  match ShouldBindBodyWith c productReqTags with
  | (none, c1) => (none, c1)
  | (some vals, c1) => (some ⟨vals.getD 0 "", vals.getD 1 "", vals.getD 2 ""⟩, c1)

/-- First segment of `productReq` (web.go lines 22-72): parse, application
lookup, IP allow-list.  `Except.error` carries the state in which the handler
returned early. -/
def productReqResolve (env : Env) (w : World) (c : Context) :
    Except (World × Context) (ProductReqArgs × DBTProduct × World × Context) :=
  match bindProductReq c with
  | (none, c1) => Except.error (w, (GinFillBindError c1).Abort)
  | (some req, c1) =>
    match SQLGetTProductColByName env.faults w req.AppName with
    | (none, w1) => Except.error (w1, (c1.JSON ErrorCode.ErrorInternal).Abort)
    | (some none, w1) => Except.error (w1, (c1.JSON ErrorCode.ErrorNoProduct).Abort)
    | (some (some productRow), w1) =>
      if 0 < productRow.WhitelistIP.length ∧
          stringsContains productRow.WhitelistIP c1.clientIP = false then
        Except.error (w1, (c1.JSON ErrorCode.ErrorIPLimit).Abort)
      else Except.ok (req, productRow, w1, c1)

/-- Second segment of `productReq` (web.go lines 73-101): fetch the body bytes
and unmarshal them into `oldObj`. -/
def productReqPayload (w1 : World) (c1 : Context) : Except (World × Context) (GinH × Context) :=
  match bodyOf c1 with
  | (none, c2) => Except.error (w1, (c2.JSON ErrorCode.ErrorInternal).Abort)
  | (some body, c2) =>
    match jsonUnmarshal body with
    | none => Except.error (w1, (c2.JSON ErrorCode.ErrorInternal).Abort)
    | some oldObj => Except.ok (oldObj, c2)

/-- Third segment of `productReq` (web.go lines 102-116): recompute the
signature over the payload without its `sign` entry and compare. -/
def productReqSign (env : Env) (req : ProductReqArgs) (productRow : DBTProduct) (oldObj : GinH)
    (w1 : World) (c2 : Context) : Except (World × Context) Unit :=
  let checkObj := checkObjOf oldObj
  let checkSign := env.GetSign productRow.AppSk checkObj
  if checkSign = "" ∨ checkSign ≠ req.Sign then
    Except.error (w1, (c2.JSON ErrorCode.ErrorSignWrong).Abort)
  else Except.ok ()

/-- Last segment of `productReq` (web.go lines 117-143): record the nonce and
attach the application identity to the context. -/
def productReqNonce (env : Env) (req : ProductReqArgs) (productRow : DBTProduct)
    (w1 : World) (c2 : Context) : World × Context :=
  match SQLCreateIgnoreTProductNonce env.faults w1 ⟨req.Nonce, env.now⟩ with
  | (none, w2) => (w2, (c2.JSON ErrorCode.ErrorInternal).Abort)
  | (some count, w2) =>
    if count ≤ 0 then (w2, (c2.JSON ErrorCode.ErrorNonceRepeat).Abort)
    else (w2, { c2 with productID := some productRow.ID })

/-- The checks of `productReq` that precede the nonce step (web.go lines
22-116). -/
def productReqChecks (env : Env) (w : World) (c : Context) :
    Except (World × Context) (ProductReqArgs × DBTProduct × World × Context) :=
  match productReqResolve env w c with
  | Except.error r => Except.error r
  | Except.ok (req, productRow, w1, c1) =>
    match productReqPayload w1 c1 with
    | Except.error r => Except.error r
    | Except.ok (oldObj, c2) =>
      match productReqSign env req productRow oldObj w1 c2 with
      | Except.error r => Except.error r
      | Except.ok _ => Except.ok (req, productRow, w1, c2)

/-- The handler `productReq` (web.go lines 22-143). -/
def productReq (env : Env) (w : World) (c : Context) : World × Context :=
  match productReqChecks env w c with
  | Except.error r => r
  | Except.ok (req, productRow, w1, c2) => productReqNonce env req productRow w1 c2

/-- The body of `postAddress` after the transaction was opened (web.go lines
172-242); the Boolean is the final value of `isComment`. -/
def postAddressTx (env : Env) (tx : Tx) (w : World) (c : Context) : Bool × World × Context :=
  let productID := c.GetInt64ProductID
  if productID = 0 then (false, w, c.JSON ErrorCode.ErrorInternal)
  else
    match SQLGetTAddressKeyColFreeForUpdate env.faults tx w with
    | (none, w1) => (false, w1, c.JSON ErrorCode.ErrorInternal)
    | (some none, w1) => (false, w1, c.JSON ErrorCode.ErrorNoFreeAddress)
    | (some (some addressRow), w1) =>
      match SQLUpdateTAddressKeyUseTag env.faults tx w1 addressRow.ID productID with
      | (none, w2) => (false, w2, c.JSON ErrorCode.ErrorInternal)
      | (some (count, tx1), w2) =>
        if count ≤ 0 then (false, w2, c.JSON ErrorCode.ErrorInternal)
        else
          match Commit env.faults tx1 w2 with
          | (false, w3) => (false, w3, c.JSON ErrorCode.ErrorInternal)
          | (true, w3) => (true, w3, c.JSONAddress addressRow.Address)

/-- The handler `postAddress` (web.go lines 145-243): bind, open the
transaction, run the body, and roll back (the deferred function of lines
167-171) unless `isComment` was set. -/
def postAddress (env : Env) (w : World) (c : Context) : World × Context :=
  match ShouldBindBodyWith c postAddressTags with
  | (none, c1) => (w, GinFillBindError c1)
  | (some _, c1) =>
    match BeginTxx env.faults w with
    | (none, w1) => (w1, c1.JSON ErrorCode.ErrorInternal)
    | (some tx, w1) =>
      match postAddressTx env tx w1 c1 with
      | (true, w2, c2) => (w2, c2)
      | (false, w2, c2) => (Rollback w2, c2)

/-- The handler `postWithdraw` (web.go lines 245-247): empty. -/
def postWithdraw (_env : Env) (w : World) (c : Context) : World × Context :=
  (w, c)

/-- The handler chains registered by `Start` (web.go lines 17-20). -/
def Start (route : String) : List (Env → World → Context → World × Context) :=
  if route = "/api/address" then [productReq, postAddress]
  else if route = "/api/withdraw" then [productReq, postWithdraw]
  else []

/-- gin runs the handlers of a chain in order and skips the rest once
`c.Abort()` was called. -/
def runChain (env : Env) : List (Env → World → Context → World × Context) →
    World → Context → World × Context
  | [], w, c => (w, c)
  | h :: rest, w, c =>
    let wc := h env w c
    if wc.2.aborted then wc else runChain env rest wc.1 wc.2

/-- A fresh request context: nothing cached, nothing written. -/
def newContext (body : Option Body) (clientIP : String) : Context :=
  ⟨body, none, clientIP, none, false, []⟩

/-! ## Runs of several requests -/

/-- Serve the requests one after the other with the handler `h`, each to
completion before the next starts; returns the final world and the context each
request ended with. -/
def serve (h : Env → World → Context → World × Context) :
    World → List (Env × Context) → World × List Context
  | w, [] => (w, [])
  | w, (env, c) :: rest =>
    let r := h env w c
    let s := serve h r.1 rest
    (s.1, r.2 :: s.2)

/-- The storage calls recorded in `w2` after the state `w`. -/
def newOps (w w2 : World) : List StorageOp :=
  w2.log.drop w.log.length

/-- Is the storage call a nonce insert? -/
def StorageOp.isCreateNonce : StorageOp → Bool
  | StorageOp.CreateNonce _ => true
  | _ => false

/-- The row ids named by the claim-tag updates among the storage calls. -/
def claimedIDs : List StorageOp → List Int
  | [] => []
  | StorageOp.UpdateUseTag id _ :: rest => id :: claimedIDs rest
  | _ :: rest => claimedIDs rest

/-- Pool rows whose claim-tag is unset. -/
def freeRows (pool : List DBTAddressKey) : List DBTAddressKey :=
  pool.filter (fun r => r.UseTag == 0)

/-- The nonce values held by the nonce store. -/
def storedNonces (w : World) : List String :=
  w.db.tProductNonce.map (fun r => r.C)

/-- Did the context end with exactly one more envelope, carrying `code` and no
address? -/
def answered (c c2 : Context) (code : ErrorCode) : Prop :=
  c2.written = c.written ++ [⟨code, none⟩]

instance (c c2 : Context) (code : ErrorCode) : Decidable (answered c c2 code) :=
  inferInstanceAs (Decidable (c2.written = c.written ++ [(⟨code, none⟩ : Response)]))

/-- The payload `P` with the key `"sign"` removed and every other entry kept,
as the spec words it. -/
def withoutSign (P : GinH) : GinH :=
  P.filter (fun kv => kv.1 ≠ "sign")

/-- Does the body supply a signature: some member selects the field `sign`
with a non-empty string? -/
def suppliesSign (ms : Members) : Bool :=
  ms.any (fun kv => equalFold kv.1 "sign" &&
    match kv.2 with
    | JVal.str s => s != ""
    | _ => false)

/-- Every request of the run passes the parse, application, IP and signature
checks of `productReq` in the world it meets, and meets no storage failure. -/
def allPass : World → List (Env × Context) → Prop
  | _, [] => True
  | w, (env, c) :: rest =>
    env.faults = Faults.none ∧ (productReqChecks env w c).toBool = true ∧
      allPass (productReq env w c).1 rest

/-- The nonce a request carries, when its body binds. -/
def nonceOf (c : Context) : Option String :=
  (bindProductReq c).1.map (fun req => req.Nonce)

/-- The request is an authenticated, well-formed call of `postAddress`: the body
binds and a non-zero application identity is attached. -/
def authenticated (c : Context) : Prop :=
  (ShouldBindBodyWith c postAddressTags).1.isSome = true ∧ c.GetInt64ProductID ≠ 0

instance (c : Context) : Decidable (authenticated c) :=
  inferInstanceAs (Decidable (_ ∧ _))

/-- The envelopes a handler added to the context. -/
def newResponses (c c2 : Context) : List Response :=
  c2.written.drop c.written.length

/-- The call answered success: one envelope with code `ErrorSuccess` and an
address. -/
def isSuccess (c c2 : Context) : Bool :=
  match newResponses c c2 with
  | [⟨ErrorCode.ErrorSuccess, some _⟩] => true
  | _ => false

/-- The call answered `no_free_resource`, without an address. -/
def isExhausted (c c2 : Context) : Bool :=
  newResponses c c2 == [⟨ErrorCode.ErrorNoFreeAddress, none⟩]

/-- The pool after the row with the given id was tagged. -/
def tagged (pool : List DBTAddressKey) (id useTag : Int) : List DBTAddressKey :=
  pool.map (fun r => if r.ID = id then { r with UseTag := useTag } else r)

/-! ## Sample data -/

/-- A stand-in for `hcommon.GetSign` used in the examples: the string members
of the payload as `key=value`, followed by the secret. -/
def sampleSign (appSk : String) (obj : GinH) : String :=
  String.join (obj.map (fun kv =>
    match kv.2 with
    | JVal.str s => kv.1 ++ "=" ++ s ++ "&"
    | _ => kv.1 ++ "&")) ++ "key=" ++ appSk

/-- The environment of the examples: no storage failure. -/
def sampleEnv : Env := ⟨sampleSign, Faults.none, 1600000000⟩

/-- Two applications; `acme` is restricted to the address `10.0.0.11`. -/
def sampleProducts : List DBTProduct :=
  [⟨7, "acme", "s3cr3t", "10.0.0.11"⟩, ⟨8, "beta", "hunter2", ""⟩]

/-- A pool with two free rows and one claimed row. -/
def samplePool : List DBTAddressKey :=
  [⟨1, "0xaa", 0⟩, ⟨2, "0xbb", 8⟩, ⟨3, "0xcc", 0⟩]

/-- The sample world: nothing recorded yet. -/
def sampleWorld : World := ⟨⟨sampleProducts, [], samplePool⟩, []⟩

/-- A body for `POST /api/address`, signed with `sampleSign`. -/
def signedBody (appName appSk nonce : String) : Body :=
  ⟨some [("app_name", JVal.str appName), ("nonce", JVal.str nonce), ("symbol", JVal.str "eth"),
      ("sign", JVal.str (sampleSign appSk
        [("app_name", JVal.str appName), ("nonce", JVal.str nonce), ("symbol", JVal.str "eth")]))],
    false⟩

/-- A signed body with `app_name`, `nonce` and `sign` but no `symbol`. -/
def bodyWithoutSymbol : Body :=
  ⟨some [("app_name", JVal.str "acme"), ("nonce", JVal.str "abc123"),
      ("sign", JVal.str (sampleSign "s3cr3t"
        [("app_name", JVal.str "acme"), ("nonce", JVal.str "abc123")]))],
    false⟩

/-- A nonce of 41 characters. -/
def longNonce : String := String.mk (List.replicate 41 'n')

/-- A fresh request carrying `signedBody`, arriving from `clientIP`. -/
def sampleRequest (appName appSk nonce clientIP : String) : Context :=
  newContext (some (signedBody appName appSk nonce)) clientIP

/-- A call of `postAddress` as it arrives behind `productReq`: the body is
cached and the application identity `productID` is attached. -/
def sampleCall (productID : Int) : Context :=
  ⟨some (signedBody "acme" "s3cr3t" "abc123"), some (signedBody "acme" "s3cr3t" "abc123"),
    "10.0.0.11", some productID, false, []⟩

/-- Three authenticated calls of `postAddress`, for a pool with two free rows. -/
def sampleCalls : List (Env × Context) :=
  [(sampleEnv, sampleCall 7), (sampleEnv, sampleCall 8), (sampleEnv, sampleCall 7)]

/-- An environment in which the claim-tag update matches no row. -/
def vanishingEnv : Env := ⟨sampleSign, ⟨false, false, false, false, false, true, false⟩, 1600000000⟩

/-- A body with `app_name`, `nonce` and `symbol` but no `sign`. -/
def bodyWithoutSign : Body :=
  ⟨some [("app_name", JVal.str "acme"), ("nonce", JVal.str "abc123"), ("symbol", JVal.str "eth")],
    false⟩


/-! ## The context and the body -/

theorem bodyOf_fields (c : Context) :
    (bodyOf c).2.written = c.written ∧ (bodyOf c).2.aborted = c.aborted ∧
    (bodyOf c).2.clientIP = c.clientIP ∧ (bodyOf c).2.productID = c.productID ∧
    (bodyOf c).2.bodyBytes = (bodyOf c).1 := by
  unfold bodyOf
  cases hb : c.bodyBytes with
  | some b => simp [hb]
  | none =>
    cases hr : c.requestBody with
    | none => simp [hb]
    | some b => simp

theorem bodyOf_again (c : Context) (b : Body) (c1 : Context) (h : bodyOf c = (some b, c1)) :
    bodyOf c1 = (some b, c1) := by
  have hf := (bodyOf_fields c).2.2.2.2
  rw [h] at hf
  simp only at hf
  unfold bodyOf
  rw [hf]

theorem ShouldBindBodyWith_ctx (c : Context) (tags : List FieldTag) :
    (ShouldBindBodyWith c tags).2 = (bodyOf c).2 := by
  unfold ShouldBindBodyWith
  split
  · next h => rw [h]
  · next b c1 h =>
    rw [h]
    split
    · rfl
    · split
      · rfl
      · split <;> rfl

theorem bindProductReq_ctx (c : Context) : (bindProductReq c).2 = (bodyOf c).2 := by
  unfold bindProductReq
  have h := ShouldBindBodyWith_ctx c productReqTags
  split
  · next h1 => rw [h1] at h; exact h
  · next h1 => rw [h1] at h; exact h

/-! ## The segments of `productReq` -/

theorem productReqResolve_ok (env : Env) (w : World) (c : Context) (req : ProductReqArgs)
    (productRow : DBTProduct) (w1 : World) (c1 : Context)
    (h : productReqResolve env w c = Except.ok (req, productRow, w1, c1)) :
    bindProductReq c = (some req, c1) ∧ c1 = (bodyOf c).2 ∧
    env.faults.getProduct = false ∧
    w.db.tProduct.find? (fun p => p.AppName == req.AppName) = some productRow ∧
    (productRow.WhitelistIP.length = 0 ∨
      stringsContains productRow.WhitelistIP c.clientIP = true) ∧
    w1 = w.record (StorageOp.GetProduct req.AppName) := by
  unfold productReqResolve at h
  split at h
  · simp at h
  · next req0 c0 hb =>
    have hc := bindProductReq_ctx c
    rw [hb] at hc
    simp only at hc
    unfold SQLGetTProductColByName at h
    by_cases hf : env.faults.getProduct = true
    · simp [hf] at h
    · simp only [hf] at h
      simp only [Bool.false_eq_true, if_false] at h
      cases hfind : w.db.tProduct.find? (fun p => p.AppName == req0.AppName) with
      | none => simp [hfind] at h
      | some row =>
        simp only [hfind] at h
        split at h
        · simp at h
        · next hip =>
          simp only [Except.ok.injEq, Prod.mk.injEq] at h
          obtain ⟨h1, h2, h3, h4⟩ := h
          subst h1 h2 h3 h4
          refine ⟨hb, hc, by simpa using hf, hfind, ?_, rfl⟩
          have hcl : c0.clientIP = c.clientIP := by rw [hc]; exact (bodyOf_fields c).2.2.1
          rw [hcl] at hip
          by_cases hl : req0 = req0 ∧ row.WhitelistIP.length = 0
          · exact Or.inl hl.2
          · right
            have : 0 < row.WhitelistIP.length := by
              have : row.WhitelistIP.length ≠ 0 := fun h0 => hl ⟨rfl, h0⟩
              omega
            cases hs : stringsContains row.WhitelistIP c.clientIP with
            | true => rfl
            | false => exact absurd ⟨this, hs⟩ hip

theorem productReqResolve_error (env : Env) (w : World) (c : Context) (r : World × Context)
    (h : productReqResolve env w c = Except.error r) :
    r.1.db = w.db ∧ r.2.aborted = true ∧
    ((r.1.log = w.log ∧ answered c r.2 ErrorCode.ErrorBind ∧ (bindProductReq c).1 = none) ∨
     (∃ req, (bindProductReq c).1 = some req ∧
        r.1.log = w.log ++ [StorageOp.GetProduct req.AppName] ∧
        ((answered c r.2 ErrorCode.ErrorInternal ∧ env.faults.getProduct = true) ∨
         (answered c r.2 ErrorCode.ErrorNoProduct ∧ env.faults.getProduct = false ∧
            w.db.tProduct.find? (fun p => p.AppName == req.AppName) = none) ∨
         (answered c r.2 ErrorCode.ErrorIPLimit ∧ env.faults.getProduct = false ∧
            ∃ productRow,
              w.db.tProduct.find? (fun p => p.AppName == req.AppName) = some productRow ∧
              0 < productRow.WhitelistIP.length ∧
              stringsContains productRow.WhitelistIP c.clientIP = false)))) := by
  have hc := bindProductReq_ctx c
  have hw := (bodyOf_fields c).1
  have hip := (bodyOf_fields c).2.2.1
  unfold productReqResolve at h
  split at h
  · next c0 hb =>
    rw [hb] at hc
    simp only at hc
    simp only [Except.error.injEq] at h
    subst h
    refine ⟨rfl, rfl, Or.inl ⟨rfl, ?_, by rw [hb]⟩⟩
    simp [answered, GinFillBindError, Context.JSON, Context.Abort, hc, hw]
  · next req0 c0 hb =>
    rw [hb] at hc
    simp only at hc
    unfold SQLGetTProductColByName at h
    by_cases hf : env.faults.getProduct = true
    · simp only [hf, if_true, Except.error.injEq] at h
      subst h
      refine ⟨rfl, rfl, Or.inr ⟨req0, by rw [hb], rfl, Or.inl ⟨?_, hf⟩⟩⟩
      simp [answered, Context.JSON, Context.Abort, hc, hw]
    · have hf2 : env.faults.getProduct = false := by simpa using hf
      simp only [hf2, Bool.false_eq_true, if_false] at h
      cases hfind : w.db.tProduct.find? (fun p => p.AppName == req0.AppName) with
      | none =>
        simp only [hfind, Except.error.injEq] at h
        subst h
        refine ⟨rfl, rfl, Or.inr ⟨req0, by rw [hb], rfl, Or.inr (Or.inl ⟨?_, hf2, hfind⟩)⟩⟩
        simp [answered, Context.JSON, Context.Abort, hc, hw]
      | some row =>
        simp only [hfind] at h
        split at h
        · next hcond =>
          simp only [Except.error.injEq] at h
          subst h
          refine ⟨rfl, rfl, Or.inr ⟨req0, by rw [hb], rfl,
            Or.inr (Or.inr ⟨?_, hf2, row, hfind, hcond.1, ?_⟩)⟩⟩
          · simp [answered, Context.JSON, Context.Abort, hc, hw]
          · rw [← hip, ← hc]; exact hcond.2
        · simp at h

theorem productReqPayload_ok (w1 : World) (c1 : Context) (oldObj : GinH) (c2 : Context)
    (h : productReqPayload w1 c1 = Except.ok (oldObj, c2)) :
    c2 = (bodyOf c1).2 ∧ ∃ body, (bodyOf c1).1 = some body ∧ jsonUnmarshal body = some oldObj := by
  unfold productReqPayload at h
  split at h
  · simp at h
  · next body c0 hb =>
    split at h
    · simp at h
    · next obj hu =>
      simp only [Except.ok.injEq, Prod.mk.injEq] at h
      obtain ⟨h1, h2⟩ := h
      subst h1 h2
      rw [hb]
      exact ⟨rfl, body, rfl, hu⟩

theorem productReqPayload_error (w1 : World) (c1 : Context) (r : World × Context)
    (h : productReqPayload w1 c1 = Except.error r) :
    r.1 = w1 ∧ r.2.aborted = true ∧ answered c1 r.2 ErrorCode.ErrorInternal := by
  have hw := (bodyOf_fields c1).1
  unfold productReqPayload at h
  split at h
  · next c0 hb =>
    rw [hb] at hw
    simp only [Except.error.injEq] at h
    subst h
    refine ⟨rfl, rfl, ?_⟩
    simp only at hw
    simp [answered, Context.JSON, Context.Abort, hw]
  · next body c0 hb =>
    rw [hb] at hw
    simp only at hw
    split at h
    · simp only [Except.error.injEq] at h
      subst h
      refine ⟨rfl, rfl, ?_⟩
      simp [answered, Context.JSON, Context.Abort, hw]
    · simp at h

theorem productReqSign_ok_iff (env : Env) (req : ProductReqArgs) (productRow : DBTProduct)
    (oldObj : GinH) (w1 : World) (c2 : Context) :
    productReqSign env req productRow oldObj w1 c2 = Except.ok () ↔
      (req.Sign ≠ "" ∧ req.Sign = env.GetSign productRow.AppSk (checkObjOf oldObj)) := by
  unfold productReqSign
  simp only
  split
  · next hcond =>
    constructor
    · intro h; simp at h
    · rintro ⟨hne, heq⟩
      rcases hcond with h0 | h1
      · exact absurd (heq.trans h0) hne
      · exact absurd heq.symm h1
  · next hcond =>
    have h1 : ¬ env.GetSign productRow.AppSk (checkObjOf oldObj) = "" := fun h => hcond (Or.inl h)
    have h2 : env.GetSign productRow.AppSk (checkObjOf oldObj) = req.Sign := by
      by_contra hne
      exact hcond (Or.inr hne)
    constructor
    · intro _
      exact ⟨by rw [← h2]; exact h1, h2.symm⟩
    · intro _; rfl

theorem productReqSign_error (env : Env) (req : ProductReqArgs) (productRow : DBTProduct)
    (oldObj : GinH) (w1 : World) (c2 : Context) (r : World × Context)
    (h : productReqSign env req productRow oldObj w1 c2 = Except.error r) :
    r = (w1, (c2.JSON ErrorCode.ErrorSignWrong).Abort) := by
  unfold productReqSign at h
  simp only at h
  split at h
  · simp only [Except.error.injEq] at h
    exact h.symm
  · simp at h

theorem ShouldBindBodyWith_some (c : Context) (tags : List FieldTag) (vals : List String)
    (c1 : Context) (h : ShouldBindBodyWith c tags = (some vals, c1)) :
    ∃ b ms, bodyOf c = (some b, c1) ∧ b.members = some ms ∧
      jsonDecodeStruct tags ms (tags.map (fun _ => "")) = some vals ∧
      ginValidate tags vals = true := by
  unfold ShouldBindBodyWith at h
  split at h
  · simp at h
  · next b c0 hb =>
    split at h
    · simp at h
    · next ms hm =>
      split at h
      · simp at h
      · next vals0 hd =>
        split at h
        · next hv =>
          simp only [Prod.mk.injEq, Option.some.injEq] at h
          obtain ⟨h1, h2⟩ := h
          subst h1 h2
          exact ⟨b, ms, hb, hm, hd, hv⟩
        · simp at h

theorem bindProductReq_some (c : Context) (req : ProductReqArgs) (c1 : Context)
    (h : bindProductReq c = (some req, c1)) :
    ∃ b ms vals, bodyOf c = (some b, c1) ∧ b.members = some ms ∧
      jsonDecodeStruct productReqTags ms ["", "", ""] = some vals ∧
      ginValidate productReqTags vals = true ∧
      req = ⟨vals.getD 0 "", vals.getD 1 "", vals.getD 2 ""⟩ := by
  unfold bindProductReq at h
  split at h
  · simp at h
  · next vals c0 hs =>
    simp only [Prod.mk.injEq, Option.some.injEq] at h
    obtain ⟨h1, h2⟩ := h
    subst h1 h2
    obtain ⟨b, ms, hb, hm, hd, hv⟩ := ShouldBindBodyWith_some c productReqTags vals c0 hs
    exact ⟨b, ms, vals, hb, hm, hd, hv, rfl⟩

theorem productReqChecks_ok (env : Env) (w : World) (c : Context) (req : ProductReqArgs)
    (productRow : DBTProduct) (w1 : World) (c2 : Context)
    (h : productReqChecks env w c = Except.ok (req, productRow, w1, c2)) :
    bindProductReq c = (some req, c2) ∧ c2 = (bodyOf c).2 ∧
    env.faults.getProduct = false ∧
    w.db.tProduct.find? (fun p => p.AppName == req.AppName) = some productRow ∧
    (productRow.WhitelistIP.length = 0 ∨
      stringsContains productRow.WhitelistIP c.clientIP = true) ∧
    w1 = w.record (StorageOp.GetProduct req.AppName) ∧
    ∃ body oldObj, (bodyOf c).1 = some body ∧ jsonUnmarshal body = some oldObj ∧
      req.Sign ≠ "" ∧ req.Sign = env.GetSign productRow.AppSk (checkObjOf oldObj) := by
  unfold productReqChecks at h
  split at h
  · simp at h
  · next req0 row0 w0 c0 hres =>
    split at h
    · simp at h
    · next oldObj c3 hpay =>
      split at h
      · simp at h
      · next hsign =>
        simp only [Except.ok.injEq, Prod.mk.injEq] at h
        obtain ⟨h1, h2, h3, h4⟩ := h
        subst h1 h2 h3 h4
        obtain ⟨hb, hc, hf, hfind, hip, hw1⟩ := productReqResolve_ok env w c _ _ _ _ hres
        obtain ⟨b, ms, vals, hbody, -⟩ := bindProductReq_some c _ _ hb
        have hagain := bodyOf_again c b c0 hbody
        obtain ⟨hc3, body, hb1, hu⟩ := productReqPayload_ok _ _ _ _ hpay
        rw [hagain] at hc3 hb1
        simp only at hc3 hb1
        subst hc3
        simp only [Option.some.injEq] at hb1
        subst hb1
        refine ⟨hb, hc, hf, hfind, hip, hw1, b, oldObj, by rw [hbody], hu, ?_⟩
        exact (productReqSign_ok_iff env _ _ _ _ _).mp hsign

theorem productReqChecks_error (env : Env) (w : World) (c : Context) (r : World × Context)
    (h : productReqChecks env w c = Except.error r) :
    r.1.db = w.db ∧ r.2.aborted = true ∧
    ((r.1.log = w.log ∧ answered c r.2 ErrorCode.ErrorBind ∧ (bindProductReq c).1 = none) ∨
     (∃ req, (bindProductReq c).1 = some req ∧
        r.1.log = w.log ++ [StorageOp.GetProduct req.AppName] ∧
        (answered c r.2 ErrorCode.ErrorInternal ∨ answered c r.2 ErrorCode.ErrorNoProduct ∨
         answered c r.2 ErrorCode.ErrorIPLimit ∨ answered c r.2 ErrorCode.ErrorSignWrong))) := by
  unfold productReqChecks at h
  split at h
  · next r0 hres =>
    simp only [Except.error.injEq] at h
    subst h
    obtain ⟨hdb, hab, hcase⟩ := productReqResolve_error env w c _ hres
    refine ⟨hdb, hab, ?_⟩
    rcases hcase with hbind | ⟨req, hreq, hlog, hcode⟩
    · exact Or.inl hbind
    · refine Or.inr ⟨req, hreq, hlog, ?_⟩
      rcases hcode with h1 | h1 | h1
      · exact Or.inl h1.1
      · exact Or.inr (Or.inl h1.1)
      · exact Or.inr (Or.inr (Or.inl h1.1))
  · next req0 row0 w0 c0 hres =>
    obtain ⟨hb, hc, hf, hfind, hip, hw1⟩ := productReqResolve_ok env w c _ _ _ _ hres
    have hwr : c0.written = c.written := by rw [hc]; exact (bodyOf_fields c).1
    split at h
    · next r0 hpay =>
      simp only [Except.error.injEq] at h
      subst h
      obtain ⟨h1, h2, h3⟩ := productReqPayload_error _ _ _ hpay
      refine ⟨by rw [h1, hw1]; rfl, h2, Or.inr ⟨req0, by rw [hb], by rw [h1, hw1]; rfl, Or.inl ?_⟩⟩
      unfold answered at h3 ⊢
      rw [h3, hwr]
    · next oldObj c3 hpay =>
      obtain ⟨hc3, -⟩ := productReqPayload_ok _ _ _ _ hpay
      have hwr3 : c3.written = c.written := by rw [hc3, (bodyOf_fields c0).1, hwr]
      split at h
      · next r0 hsign =>
        simp only [Except.error.injEq] at h
        subst h
        have hr := productReqSign_error _ _ _ _ _ _ _ hsign
        subst hr
        refine ⟨by rw [hw1]; rfl, rfl, Or.inr ⟨req0, by rw [hb], by rw [hw1]; rfl,
          Or.inr (Or.inr (Or.inr ?_))⟩⟩
        simp [answered, Context.JSON, Context.Abort, hwr3]
      · simp at h

theorem productReqNonce_spec (env : Env) (req : ProductReqArgs) (productRow : DBTProduct)
    (w1 : World) (c2 : Context) (hf : env.faults.createNonce = false) :
    (req.Nonce ∈ storedNonces w1 →
      productReqNonce env req productRow w1 c2 =
        (w1.record (StorageOp.CreateNonce req.Nonce),
          (c2.JSON ErrorCode.ErrorNonceRepeat).Abort)) ∧
    (req.Nonce ∉ storedNonces w1 →
      productReqNonce env req productRow w1 c2 =
        ({ (w1.record (StorageOp.CreateNonce req.Nonce)) with
            db := { w1.db with tProductNonce := w1.db.tProductNonce ++ [⟨req.Nonce, env.now⟩] } },
          { c2 with productID := some productRow.ID })) := by
  unfold productReqNonce SQLCreateIgnoreTProductNonce storedNonces
  simp only [hf, Bool.false_eq_true, if_false]
  constructor
  · intro hmem
    have : (w1.db.tProductNonce.any fun r => r.C == req.Nonce) = true := by
      simp only [List.mem_map] at hmem
      obtain ⟨r, hr, hrc⟩ := hmem
      simp only [List.any_eq_true, beq_iff_eq]
      exact ⟨r, hr, hrc⟩
    simp [this]
  · intro hmem
    have : (w1.db.tProductNonce.any fun r => r.C == req.Nonce) = false := by
      rw [Bool.eq_false_iff]
      intro hany
      simp only [List.any_eq_true, beq_iff_eq] at hany
      obtain ⟨r, hr, hrc⟩ := hany
      exact hmem (List.mem_map.mpr ⟨r, hr, hrc⟩)
    simp [this]

theorem newOps_of_log (w w2 : World) (ops : List StorageOp) (h : w2.log = w.log ++ ops) :
    newOps w w2 = ops := by
  unfold newOps
  rw [h]
  simp

theorem answered_unique (c c2 : Context) (a b : ErrorCode) (ha : answered c c2 a)
    (hb : answered c c2 b) : a = b := by
  unfold answered at ha hb
  rw [ha] at hb
  simpa using hb

theorem not_answered_of_silent (c c2 : Context) (a : ErrorCode) (h : c2.written = c.written) :
    ¬ answered c c2 a := by
  intro ha
  unfold answered at ha
  rw [h] at ha
  simp at ha

theorem productReqNonce_cases (env : Env) (req : ProductReqArgs) (productRow : DBTProduct)
    (w1 : World) (c2 : Context) :
    (productReqNonce env req productRow w1 c2).1.log =
        w1.log ++ [StorageOp.CreateNonce req.Nonce] ∧
    (((productReqNonce env req productRow w1 c2).1.db = w1.db ∧
        (productReqNonce env req productRow w1 c2).2.aborted = true ∧
        (answered c2 (productReqNonce env req productRow w1 c2).2 ErrorCode.ErrorInternal ∨
         answered c2 (productReqNonce env req productRow w1 c2).2 ErrorCode.ErrorNonceRepeat)) ∨
     ((productReqNonce env req productRow w1 c2).1.db =
          { w1.db with tProductNonce := w1.db.tProductNonce ++ [⟨req.Nonce, env.now⟩] } ∧
        (productReqNonce env req productRow w1 c2).2 =
          { c2 with productID := some productRow.ID })) := by
  unfold productReqNonce SQLCreateIgnoreTProductNonce
  by_cases hf : env.faults.createNonce = true
  · simp [hf, World.record, answered, Context.JSON, Context.Abort]
  · simp only [hf, if_false]
    by_cases hany : (w1.db.tProductNonce.any fun r => r.C == req.Nonce) = true
    · simp [hany, World.record, answered, Context.JSON, Context.Abort]
    · simp [hany, World.record]

/-- C2: a request that `productReq` rejects with a validation error,
`no_such_product`, `ip_not_whitelisted` or `signature_mismatch`, or whose
application lookup fails, is aborted with the database (hence the nonce store)
unchanged and without any nonce insert among its storage calls; and a nonce
insert is among the storage calls only when the body bound, the application was
found, the IP check passed and the supplied sign equals the recomputed one. -/
theorem productReq_early_rejection_keeps_nonce_store (env : Env) (w : World) (c : Context) :
    (((∃ code, code ∈ [ErrorCode.ErrorBind, ErrorCode.ErrorNoProduct, ErrorCode.ErrorIPLimit,
            ErrorCode.ErrorSignWrong] ∧ answered c (productReq env w c).2 code) ∨
        env.faults.getProduct = true) →
      (productReq env w c).2.aborted = true ∧
      (productReq env w c).1.db = w.db ∧
      (newOps w (productReq env w c).1).any StorageOp.isCreateNonce = false) ∧
    ((newOps w (productReq env w c).1).any StorageOp.isCreateNonce = true →
      ∃ req productRow body oldObj,
        (bindProductReq c).1 = some req ∧
        w.db.tProduct.find? (fun p => p.AppName == req.AppName) = some productRow ∧
        (productRow.WhitelistIP.length = 0 ∨
          stringsContains productRow.WhitelistIP c.clientIP = true) ∧
        (bodyOf c).1 = some body ∧ jsonUnmarshal body = some oldObj ∧
        req.Sign ≠ "" ∧ req.Sign = env.GetSign productRow.AppSk (checkObjOf oldObj) ∧
        newOps w (productReq env w c).1 =
          [StorageOp.GetProduct req.AppName, StorageOp.CreateNonce req.Nonce]) := by
  cases hch : productReqChecks env w c with
  | error r =>
    have hpr : productReq env w c = r := by unfold productReq; rw [hch]
    rw [hpr]
    obtain ⟨hdb, hab, hcase⟩ := productReqChecks_error env w c r hch
    have hops : (newOps w r.1).any StorageOp.isCreateNonce = false := by
      rcases hcase with ⟨hlog, -⟩ | ⟨req, -, hlog, -⟩
      · rw [newOps_of_log w r.1 [] (by simpa using hlog)]; rfl
      · rw [newOps_of_log w r.1 _ hlog]; rfl
    refine ⟨fun _ => ⟨hab, hdb, hops⟩, ?_⟩
    intro h
    rw [hops] at h
    exact absurd h (by decide)
  | ok v =>
    obtain ⟨req, productRow, w1, c2⟩ := v
    have hpr : productReq env w c = productReqNonce env req productRow w1 c2 := by
      unfold productReq; rw [hch]
    rw [hpr]
    obtain ⟨hb, hc, hf, hfind, hip, hw1, body, oldObj, hbody, hu, hne, hsig⟩ :=
      productReqChecks_ok env w c req productRow w1 c2 hch
    obtain ⟨hlog, hcase⟩ := productReqNonce_cases env req productRow w1 c2
    have hwr : c2.written = c.written := by rw [hc]; exact (bodyOf_fields c).1
    have hlog2 : (productReqNonce env req productRow w1 c2).1.log =
        w.log ++ [StorageOp.GetProduct req.AppName, StorageOp.CreateNonce req.Nonce] := by
      rw [hlog, hw1]; simp [World.record]
    constructor
    · rintro (⟨code, hmem, hans⟩ | hfault)
      · exfalso
        rcases hcase with ⟨-, -, hcode⟩ | ⟨-, hctx⟩
        · have hans2 : answered c2 (productReqNonce env req productRow w1 c2).2 code := by
            unfold answered at hans ⊢; rw [hwr]; exact hans
          rcases hcode with h1 | h1
          · have := answered_unique _ _ _ _ hans2 h1
            subst this
            simp at hmem
          · have := answered_unique _ _ _ _ hans2 h1
            subst this
            simp at hmem
        · refine not_answered_of_silent c _ code ?_ hans
          rw [hctx]; exact hwr
      · rw [hf] at hfault
        exact absurd hfault (by decide)
    · intro _
      exact ⟨req, productRow, body, oldObj, by rw [hb], hfind, hip, hbody, hu, hne, hsig,
        newOps_of_log w _ _ hlog2⟩

/-! ## Go maps -/

theorem mapSet_keys (m : GinH) (k : String) (v : JVal) :
    (mapSet m k v).map Prod.fst = if k ∈ m.map Prod.fst then m.map Prod.fst
      else m.map Prod.fst ++ [k] := by
  induction m with
  | nil => simp [mapSet]
  | cons kv rest ih =>
    obtain ⟨k0, v0⟩ := kv
    unfold mapSet
    by_cases h : k0 = k
    · simp [h]
    · have h2 : ¬ k = k0 := fun e => h e.symm
      simp only [h, if_false, List.map_cons, ih, List.mem_cons, h2, false_or]
      split <;> simp

theorem mapSet_fresh (m : GinH) (k : String) (v : JVal) (h : k ∉ m.map Prod.fst) :
    mapSet m k v = m ++ [(k, v)] := by
  induction m with
  | nil => simp [mapSet]
  | cons kv rest ih =>
    obtain ⟨k0, v0⟩ := kv
    simp only [List.map_cons, List.mem_cons, not_or] at h
    unfold mapSet
    have h2 : ¬ k0 = k := fun e => h.1 e.symm
    simp [h2, ih h.2]

theorem mapSet_nodup (m : GinH) (k : String) (v : JVal) (h : (m.map Prod.fst).Nodup) :
    ((mapSet m k v).map Prod.fst).Nodup := by
  rw [mapSet_keys]
  split
  · exact h
  · next hk =>
    rw [List.nodup_append]
    refine ⟨h, List.nodup_singleton k, ?_⟩
    intro a ha hb
    simp only [List.mem_singleton] at hb
    subst hb
    exact hk ha

theorem foldl_mapSet_nodup (ms : Members) (m : GinH) (h : (m.map Prod.fst).Nodup) :
    ((ms.foldl (fun m kv => mapSet m kv.1 kv.2) m).map Prod.fst).Nodup := by
  induction ms generalizing m with
  | nil => exact h
  | cons kv rest ih => exact ih _ (mapSet_nodup m kv.1 kv.2 h)

theorem jsonUnmarshal_nodup (body : Body) (oldObj : GinH) (h : jsonUnmarshal body = some oldObj) :
    (oldObj.map Prod.fst).Nodup := by
  unfold jsonUnmarshal at h
  split at h
  · simp at h
  · split at h
    · simp at h
    · simp only [Option.some.injEq] at h
      subst h
      exact foldl_mapSet_nodup _ [] (by simp)

theorem checkObj_foldl (l acc : GinH) (hl : (l.map Prod.fst).Nodup)
    (hd : ∀ k, k ∈ l.map Prod.fst → k ∉ acc.map Prod.fst) :
    l.foldl (fun checkObj kv => if kv.1 ≠ "sign" then mapSet checkObj kv.1 kv.2 else checkObj) acc
      = acc ++ withoutSign l := by
  induction l generalizing acc with
  | nil => simp [withoutSign]
  | cons kv rest ih =>
    obtain ⟨k, v⟩ := kv
    simp only [List.map_cons, List.nodup_cons] at hl
    simp only [List.foldl_cons]
    by_cases hk : k = "sign"
    · have hd2 : ∀ k2, k2 ∈ rest.map Prod.fst → k2 ∉ acc.map Prod.fst := fun k2 h2 =>
        hd k2 (by simp only [List.map_cons, List.mem_cons]; exact Or.inr h2)
      simp only [hk, ne_eq, not_true_eq_false, if_false]
      rw [ih acc hl.2 hd2]
      simp [withoutSign, hk]
    · have hfresh : k ∉ acc.map Prod.fst := hd k (by simp)
      simp only [ne_eq, hk, not_false_eq_true, if_true]
      rw [mapSet_fresh acc k v hfresh]
      rw [ih (acc ++ [(k, v)]) hl.2]
      · simp [withoutSign, hk]
      · intro k2 h2
        simp only [List.map_append, List.map_cons, List.map_nil, List.mem_append,
          List.mem_singleton, not_or]
        refine ⟨hd k2 (by simp only [List.map_cons, List.mem_cons]; exact Or.inr h2), ?_⟩
        intro e
        subst e
        exact hl.1 h2

theorem checkObjOf_eq_withoutSign (oldObj : GinH) (h : (oldObj.map Prod.fst).Nodup) :
    checkObjOf oldObj = withoutSign oldObj := by
  unfold checkObjOf
  rw [checkObj_foldl oldObj [] h (by simp)]
  simp

theorem withoutSign_mapSet_sign (P : GinH) (v : JVal) :
    withoutSign (mapSet P "sign" v) = withoutSign P := by
  induction P with
  | nil => simp [mapSet, withoutSign]
  | cons kv rest ih =>
    obtain ⟨k0, v0⟩ := kv
    unfold mapSet
    by_cases h : k0 = "sign"
    · simp [h, withoutSign]
    · simp only [h, if_false]
      unfold withoutSign at ih ⊢
      simp only [ne_eq, decide_not] at ih
      simp [h, ih]

/-! ## Binding -/

theorem jsonDecodeStruct_length (tags : List FieldTag) (ms : Members) (vals out : List String)
    (hlen : vals.length = tags.length) (h : jsonDecodeStruct tags ms vals = some out) :
    out.length = tags.length := by
  induction ms generalizing vals with
  | nil =>
    simp only [jsonDecodeStruct, Option.some.injEq] at h
    rw [← h]; exact hlen
  | cons kv rest ih =>
    obtain ⟨k, v⟩ := kv
    unfold jsonDecodeStruct at h
    split at h
    · cases v with
      | str s =>
        simp only at h
        refine ih (storeMember tags k s vals) ?_ h
        simp [storeMember, hlen]
      | null => exact ih vals hlen h
      | bool b => simp at h
      | num lit => simp at h
      | composite raw => simp at h
    · exact ih vals hlen h

theorem list_length_three (l : List String) (h : l.length = 3) :
    l = [l.getD 0 "", l.getD 1 "", l.getD 2 ""] := by
  match l, h with
  | [a, b, c], _ => rfl

theorem ginValidate_productReq (a b s : String) :
    ginValidate productReqTags [a, b, s] = true ↔ a ≠ "" ∧ b ≠ "" ∧ s ≠ "" := by
  simp [ginValidate, productReqTags]

theorem jsonDecodeStruct_sign_empty (ms : Members) (vals out : List String)
    (hlen : vals.length = 3) (hs : vals.getD 2 "" = "") (hno : suppliesSign ms = false)
    (h : jsonDecodeStruct productReqTags ms vals = some out) : out.getD 2 "" = "" := by
  induction ms generalizing vals with
  | nil =>
    simp only [jsonDecodeStruct, Option.some.injEq] at h
    rw [← h]; exact hs
  | cons kv rest ih =>
    obtain ⟨k, v⟩ := kv
    have hrest : suppliesSign rest = false := by
      unfold suppliesSign at hno ⊢
      simp only [List.any_cons, Bool.or_eq_false_iff] at hno
      exact hno.2
    have hhead : equalFold k "sign" = true → ∀ s, v = JVal.str s → s = "" := by
      intro hk s hv
      unfold suppliesSign at hno
      simp only [List.any_cons, Bool.or_eq_false_iff] at hno
      have h1 := hno.1
      subst hv
      simpa [hk] using h1
    unfold jsonDecodeStruct at h
    split at h
    · cases v with
      | str s =>
        simp only at h
        refine ih (storeMember productReqTags k s vals) ?_ ?_ hrest h
        · simp [storeMember, productReqTags, hlen]
        · rw [list_length_three vals hlen]
          simp only [storeMember, productReqTags, List.zipWith_cons_cons, List.zipWith_nil_right,
            List.getD_cons_succ, List.getD_cons_zero]
          split
          · next hk => exact hhead hk s rfl
          · simpa using hs
      | null => exact ih vals hlen hs hrest h
      | bool b => simp at h
      | num lit => simp at h
      | composite raw => simp at h
    · exact ih vals hlen hs hrest h

theorem bindProductReq_required (c : Context) (req : ProductReqArgs) (c1 : Context)
    (h : bindProductReq c = (some req, c1)) :
    req.AppName ≠ "" ∧ req.Nonce ≠ "" ∧ req.Sign ≠ "" ∧
    ∃ b ms, (bodyOf c).1 = some b ∧ b.members = some ms ∧ suppliesSign ms = true := by
  obtain ⟨b, ms, vals, hbody, hm, hd, hv, hreq⟩ := bindProductReq_some c req c1 h
  have hlen : vals.length = 3 :=
    jsonDecodeStruct_length productReqTags ms ["", "", ""] vals rfl hd
  rw [list_length_three vals hlen] at hv
  have hv2 := (ginValidate_productReq _ _ _).mp hv
  subst hreq
  refine ⟨hv2.1, hv2.2.1, hv2.2.2, b, ms, by rw [hbody], hm, ?_⟩
  by_contra hno
  have hno2 : suppliesSign ms = false := by simpa using hno
  exact hv2.2.2 (jsonDecodeStruct_sign_empty ms ["", "", ""] vals rfl rfl hno2 hd)

/-- C3: for a request that reaches the signature step of `productReq` with the
resolved row `productRow` (secret `AppSk`) and the parsed payload `oldObj`: the
step is passed, and the handler goes on to the nonce step, exactly when the
supplied sign is non-empty and equal to `GetSign` of the secret and the payload
without its `"sign"` entry; otherwise the request is aborted with
`signature_mismatch`.  Replacing the value stored under `"sign"` leaves the
recomputed signature unchanged, and a request that is not aborted always
carries a non-empty sign supplied by a member of its body. -/
theorem productReq_signature_check (env : Env) (w : World) (c : Context) (req : ProductReqArgs)
    (productRow : DBTProduct) (w1 : World) (c1 : Context) (oldObj : GinH) (c2 : Context)
    (hres : productReqResolve env w c = Except.ok (req, productRow, w1, c1))
    (hpay : productReqPayload w1 c1 = Except.ok (oldObj, c2)) :
    checkObjOf oldObj = withoutSign oldObj ∧
    (productReqSign env req productRow oldObj w1 c2 = Except.ok () ↔
      (req.Sign ≠ "" ∧ req.Sign = env.GetSign productRow.AppSk (withoutSign oldObj))) ∧
    (productReqSign env req productRow oldObj w1 c2 = Except.ok () →
      productReq env w c = productReqNonce env req productRow w1 c2) ∧
    (¬ (req.Sign ≠ "" ∧ req.Sign = env.GetSign productRow.AppSk (withoutSign oldObj)) →
      productReq env w c = (w1, (c2.JSON ErrorCode.ErrorSignWrong).Abort) ∧
      answered c (productReq env w c).2 ErrorCode.ErrorSignWrong ∧
      (productReq env w c).1.db = w.db) ∧
    (∀ v, env.GetSign productRow.AppSk (checkObjOf (mapSet oldObj "sign" v)) =
      env.GetSign productRow.AppSk (checkObjOf oldObj)) ∧
    (∀ (env2 : Env) (w2 : World) (cx : Context), (productReq env2 w2 cx).2.aborted = false →
      ∃ reqx b ms, (bindProductReq cx).1 = some reqx ∧ reqx.Sign ≠ "" ∧
        (bodyOf cx).1 = some b ∧ b.members = some ms ∧ suppliesSign ms = true) := by
  obtain ⟨hc2, body, -, hu⟩ := productReqPayload_ok w1 c1 oldObj c2 hpay
  have hnd := jsonUnmarshal_nodup body oldObj hu
  have hck := checkObjOf_eq_withoutSign oldObj hnd
  have hiff := productReqSign_ok_iff env req productRow oldObj w1 c2
  rw [hck] at hiff
  have hpass : productReqSign env req productRow oldObj w1 c2 = Except.ok () →
      productReq env w c = productReqNonce env req productRow w1 c2 := by
    intro hs
    unfold productReq productReqChecks
    rw [hres]
    simp only
    rw [hpay]
    simp only
    rw [hs]
  refine ⟨hck, hiff, hpass, ?_, ?_, ?_⟩
  · intro hcond
    have herr : productReqSign env req productRow oldObj w1 c2 =
        Except.error (w1, (c2.JSON ErrorCode.ErrorSignWrong).Abort) := by
      cases hs : productReqSign env req productRow oldObj w1 c2 with
      | error r => rw [productReqSign_error _ _ _ _ _ _ _ hs]
      | ok u => exact absurd (hiff.mp hs) hcond
    have hpr : productReq env w c = (w1, (c2.JSON ErrorCode.ErrorSignWrong).Abort) := by
      unfold productReq productReqChecks
      rw [hres]
      simp only
      rw [hpay]
      simp only
      rw [herr]
    obtain ⟨-, hc1, -, -, -, hw1⟩ := productReqResolve_ok env w c _ _ _ _ hres
    refine ⟨hpr, ?_, ?_⟩
    · rw [hpr]
      have hwr : c2.written = c.written := by
        rw [hc2, (bodyOf_fields c1).1, hc1, (bodyOf_fields c).1]
      simp [answered, Context.JSON, Context.Abort, hwr]
    · rw [hpr, hw1]; rfl
  · intro v
    rw [checkObjOf_eq_withoutSign _ (mapSet_nodup oldObj "sign" v hnd), withoutSign_mapSet_sign,
      hck]
  · intro env2 w2 cx hab
    cases hch : productReqChecks env2 w2 cx with
    | error r =>
      have hpr : productReq env2 w2 cx = r := by unfold productReq; rw [hch]
      rw [hpr, (productReqChecks_error env2 w2 cx r hch).2.1] at hab
      exact absurd hab (by decide)
    | ok val =>
      obtain ⟨reqx, rowx, wx, cx2⟩ := val
      have hb := (productReqChecks_ok env2 w2 cx _ _ _ _ hch).1
      obtain ⟨-, -, hne, b, ms, h1, h2, h3⟩ := bindProductReq_required cx reqx cx2 hb
      exact ⟨reqx, b, ms, by rw [hb], hne, h1, h2, h3⟩

/-! ## The nonce step over a run of requests -/

theorem productReq_step (env : Env) (w : World) (c : Context) (N : String)
    (hf : env.faults = Faults.none) (hpass : (productReqChecks env w c).toBool = true)
    (hN : nonceOf c = some N) :
    (N ∈ storedNonces w →
      (productReq env w c).1.db = w.db ∧ (productReq env w c).2.aborted = true ∧
      answered c (productReq env w c).2 ErrorCode.ErrorNonceRepeat ∧
      (productReq env w c).2.productID = c.productID) ∧
    (N ∉ storedNonces w →
      (productReq env w c).1.db =
        { w.db with tProductNonce := w.db.tProductNonce ++ [⟨N, env.now⟩] } ∧
      (productReq env w c).2.aborted = c.aborted ∧
      (productReq env w c).2.written = c.written ∧
      ∃ req productRow, (bindProductReq c).1 = some req ∧
        w.db.tProduct.find? (fun p => p.AppName == req.AppName) = some productRow ∧
        (productReq env w c).2.productID = some productRow.ID) := by
  cases hch : productReqChecks env w c with
  | error r => rw [hch] at hpass; exact absurd hpass (by simp [Except.toBool])
  | ok v =>
    obtain ⟨req, productRow, w1, c2⟩ := v
    have hpr : productReq env w c = productReqNonce env req productRow w1 c2 := by
      unfold productReq; rw [hch]
    obtain ⟨hb, hc, -, hfind, -, hw1, -⟩ := productReqChecks_ok env w c req productRow w1 c2 hch
    have hreq : req.Nonce = N := by
      unfold nonceOf at hN
      rw [hb] at hN
      simpa using hN
    have hfc : env.faults.createNonce = false := by rw [hf]; rfl
    obtain ⟨hin, hout⟩ := productReqNonce_spec env req productRow w1 c2 hfc
    have hst : storedNonces w1 = storedNonces w := by rw [hw1]; rfl
    have hbf := bodyOf_fields c
    rw [hst, hreq] at hin hout
    rw [hpr]
    constructor
    · intro hmem
      rw [hin hmem, hw1, hc]
      refine ⟨rfl, rfl, ?_, hbf.2.2.2.1⟩
      simp [answered, Context.JSON, Context.Abort, hbf.1]
    · intro hmem
      rw [hout hmem, hw1, hc]
      refine ⟨rfl, hbf.2.1, hbf.1, req, productRow, by rw [hb], hfind, rfl⟩

theorem productReq_tProduct (env : Env) (w : World) (c : Context) :
    (productReq env w c).1.db.tProduct = w.db.tProduct ∧
    (productReq env w c).1.db.tAddressKey = w.db.tAddressKey := by
  cases hch : productReqChecks env w c with
  | error r =>
    have hpr : productReq env w c = r := by unfold productReq; rw [hch]
    rw [hpr, (productReqChecks_error env w c r hch).1]
    exact ⟨rfl, rfl⟩
  | ok v =>
    obtain ⟨req, productRow, w1, c2⟩ := v
    have hpr : productReq env w c = productReqNonce env req productRow w1 c2 := by
      unfold productReq; rw [hch]
    have hw1 := (productReqChecks_ok env w c req productRow w1 c2 hch).2.2.2.2.2.1
    rw [hpr]
    rcases (productReqNonce_cases env req productRow w1 c2).2 with ⟨hdb, -⟩ | ⟨hdb, -⟩
    · rw [hdb, hw1]; exact ⟨rfl, rfl⟩
    · rw [hdb, hw1]; exact ⟨rfl, rfl⟩

theorem serve_append (h : Env → World → Context → World × Context) (w : World)
    (l1 l2 : List (Env × Context)) :
    (serve h w (l1 ++ l2)).1 = (serve h (serve h w l1).1 l2).1 := by
  induction l1 generalizing w with
  | nil => rfl
  | cons x rest ih =>
    obtain ⟨env, c⟩ := x
    simp only [List.cons_append, serve]
    exact ih _

theorem allPass_append (w : World) (l1 l2 : List (Env × Context)) :
    allPass w (l1 ++ l2) ↔ allPass w l1 ∧ allPass (serve productReq w l1).1 l2 := by
  induction l1 generalizing w with
  | nil => simp [allPass, serve]
  | cons x rest ih =>
    obtain ⟨env, c⟩ := x
    have ih2 := ih (productReq env w c).1
    constructor
    · intro h
      have h2 : env.faults = Faults.none ∧ (productReqChecks env w c).toBool = true ∧
          allPass (productReq env w c).1 (rest ++ l2) := h
      obtain ⟨ha, hb, hc⟩ := h2
      obtain ⟨hd, he⟩ := ih2.mp hc
      exact ⟨⟨ha, hb, hd⟩, he⟩
    · rintro ⟨⟨ha, hb, hd⟩, he⟩
      exact ⟨ha, hb, ih2.mpr ⟨hd, he⟩⟩

theorem serve_keeps_nonce (w : World) (l : List (Env × Context)) (N : String)
    (hpass : allPass w l) (hmem : N ∈ storedNonces w) :
    N ∈ storedNonces (serve productReq w l).1 := by
  induction l generalizing w with
  | nil => exact hmem
  | cons x rest ih =>
    obtain ⟨env, c⟩ := x
    obtain ⟨hf, hp, hrest⟩ := hpass
    simp only [serve]
    refine ih _ hrest ?_
    cases hch : productReqChecks env w c with
    | error r => rw [hch] at hp; exact absurd hp (by simp [Except.toBool])
    | ok v =>
      obtain ⟨req, productRow, w1, c2⟩ := v
      have hb := (productReqChecks_ok env w c req productRow w1 c2 hch).1
      have hN : nonceOf c = some req.Nonce := by unfold nonceOf; rw [hb]; rfl
      obtain ⟨hin, hout⟩ := productReq_step env w c req.Nonce hf hp hN
      by_cases hm : req.Nonce ∈ storedNonces w
      · unfold storedNonces
        rw [(hin hm).1]
        exact hmem
      · unfold storedNonces
        rw [(hout hm).1]
        simp only [List.map_append, List.mem_append]
        exact Or.inl hmem

theorem serve_leaves_fresh (w : World) (l : List (Env × Context)) (N : String)
    (hpass : allPass w l) (hfresh : N ∉ storedNonces w)
    (hl : ∀ x ∈ l, nonceOf x.2 ≠ some N) :
    N ∉ storedNonces (serve productReq w l).1 := by
  induction l generalizing w with
  | nil => exact hfresh
  | cons x rest ih =>
    obtain ⟨env, c⟩ := x
    obtain ⟨hf, hp, hrest⟩ := hpass
    simp only [serve]
    refine ih _ hrest ?_ (fun y hy => hl y (List.mem_cons_of_mem _ hy))
    cases hch : productReqChecks env w c with
    | error r => rw [hch] at hp; exact absurd hp (by simp [Except.toBool])
    | ok v =>
      obtain ⟨req, productRow, w1, c2⟩ := v
      have hb := (productReqChecks_ok env w c req productRow w1 c2 hch).1
      have hN : nonceOf c = some req.Nonce := by unfold nonceOf; rw [hb]; rfl
      have hne : req.Nonce ≠ N := by
        intro e
        exact hl (env, c) (List.mem_cons_self _ _) (by rw [hN, e])
      obtain ⟨hin, hout⟩ := productReq_step env w c req.Nonce hf hp hN
      by_cases hm : req.Nonce ∈ storedNonces w
      · unfold storedNonces
        rw [(hin hm).1]
        exact hfresh
      · unfold storedNonces
        rw [(hout hm).1]
        simp only [List.map_append, List.mem_append, not_or]
        refine ⟨hfresh, ?_⟩
        simp only [List.map_cons, List.map_nil, List.mem_singleton]
        exact fun e => hne e.symm

/-- C4: in a run of requests served one after the other by `productReq`, each
passing the parse, application, IP and signature checks with no storage
failure, where the nonce `N` is neither stored at the start nor carried by the
requests in `pre`: the first request carrying `N` is admitted (not aborted,
nothing written, the identity of its application attached) and `N` is appended
to the nonce store; any later request carrying `N`, whatever its application,
is aborted with `nonce_replay` and leaves the database unchanged. -/
theorem productReq_nonce_once (w : World) (pre mid : List (Env × Context)) (e1 e2 : Env)
    (c1 c2 : Context) (N : String)
    (hpass : allPass w (pre ++ (e1, c1) :: (mid ++ [(e2, c2)])))
    (h1 : nonceOf c1 = some N) (h2 : nonceOf c2 = some N)
    (hfresh : N ∉ storedNonces w) (hpre : ∀ x ∈ pre, nonceOf x.2 ≠ some N) :
    ((productReq e1 (serve productReq w pre).1 c1).2.aborted = c1.aborted ∧
      (productReq e1 (serve productReq w pre).1 c1).2.written = c1.written ∧
      (∃ req productRow, (bindProductReq c1).1 = some req ∧
        w.db.tProduct.find? (fun p => p.AppName == req.AppName) = some productRow ∧
        (productReq e1 (serve productReq w pre).1 c1).2.productID = some productRow.ID) ∧
      storedNonces (productReq e1 (serve productReq w pre).1 c1).1 =
        storedNonces (serve productReq w pre).1 ++ [N]) ∧
    ((productReq e2
        (serve productReq (productReq e1 (serve productReq w pre).1 c1).1 mid).1 c2).2.aborted
        = true ∧
      answered c2 (productReq e2
        (serve productReq (productReq e1 (serve productReq w pre).1 c1).1 mid).1 c2).2
        ErrorCode.ErrorNonceRepeat ∧
      (productReq e2
        (serve productReq (productReq e1 (serve productReq w pre).1 c1).1 mid).1 c2).1.db =
        (serve productReq (productReq e1 (serve productReq w pre).1 c1).1 mid).1.db ∧
      (productReq e2
        (serve productReq (productReq e1 (serve productReq w pre).1 c1).1 mid).1 c2).2.productID
        = c2.productID) := by
  obtain ⟨hp_pre, hp_rest⟩ := (allPass_append w pre _).mp hpass
  obtain ⟨hf1, hp1, hp_tail⟩ := hp_rest
  obtain ⟨hp_mid, hp_last⟩ := (allPass_append _ mid _).mp hp_tail
  obtain ⟨hf2, hp2, -⟩ := hp_last
  have hfr := serve_leaves_fresh w pre N hp_pre hfresh hpre
  have hprod : ∀ (l : List (Env × Context)) (w0 : World),
      (serve productReq w0 l).1.db.tProduct = w0.db.tProduct := by
    intro l
    induction l with
    | nil => intro w0; rfl
    | cons x rest ih =>
      intro w0
      obtain ⟨env, c⟩ := x
      simp only [serve]
      rw [ih, (productReq_tProduct env w0 c).1]
  obtain ⟨hdb, hab, hwr, req, productRow, hb, hfind, hid⟩ :=
    (productReq_step e1 _ c1 N hf1 hp1 h1).2 hfr
  have hstored : storedNonces (productReq e1 (serve productReq w pre).1 c1).1 =
      storedNonces (serve productReq w pre).1 ++ [N] := by
    unfold storedNonces
    rw [hdb]
    simp
  refine ⟨⟨hab, hwr, ⟨req, productRow, hb, ?_, hid⟩, hstored⟩, ?_⟩
  · rw [← hprod pre w]; exact hfind
  · have hmem : N ∈ storedNonces (productReq e1 (serve productReq w pre).1 c1).1 := by
      rw [hstored]; simp
    have hmem2 := serve_keeps_nonce _ mid N hp_mid hmem
    obtain ⟨hdb2, hab2, hans2, hid2⟩ := (productReq_step e2 _ c2 N hf2 hp2 h2).1 hmem2
    exact ⟨hab2, hans2, hdb2, hid2⟩

/-! ## `postAddress` -/

theorem find_free_count (pool : List DBTAddressKey) (row : DBTAddressKey)
    (h : pool.find? (fun r => r.UseTag == 0) = some row) :
    ¬ ((pool.filter (fun r => r.ID == row.ID)).length : Int) ≤ 0 := by
  have hmem : row ∈ pool := List.mem_of_find?_eq_some h
  have : row ∈ pool.filter (fun r => r.ID == row.ID) := by
    simp [List.mem_filter, hmem]
  have hpos : 0 < (pool.filter (fun r => r.ID == row.ID)).length := List.length_pos_of_mem this
  omega

theorem postAddressTx_pid_zero (env : Env) (tx : Tx) (w : World) (c : Context)
    (h : c.GetInt64ProductID = 0) :
    postAddressTx env tx w c = (false, w, c.JSON ErrorCode.ErrorInternal) := by
  unfold postAddressTx
  simp [h]

theorem postAddressTx_select_error (env : Env) (tx : Tx) (w : World) (c : Context)
    (h : c.GetInt64ProductID ≠ 0) (hf : env.faults.getFree = true) :
    postAddressTx env tx w c =
      (false, w.record StorageOp.GetFreeAddress, c.JSON ErrorCode.ErrorInternal) := by
  unfold postAddressTx SQLGetTAddressKeyColFreeForUpdate
  simp [h, hf]

theorem postAddressTx_exhausted (env : Env) (tx : Tx) (w : World) (c : Context)
    (h : c.GetInt64ProductID ≠ 0) (hf : env.faults.getFree = false)
    (hfind : tx.view.tAddressKey.find? (fun r => r.UseTag == 0) = none) :
    postAddressTx env tx w c =
      (false, w.record StorageOp.GetFreeAddress, c.JSON ErrorCode.ErrorNoFreeAddress) := by
  unfold postAddressTx SQLGetTAddressKeyColFreeForUpdate
  simp only [h, if_false, hf, Bool.false_eq_true, hfind]

theorem postAddressTx_update_error (env : Env) (tx : Tx) (w : World) (c : Context)
    (row : DBTAddressKey)
    (h : c.GetInt64ProductID ≠ 0) (hf : env.faults.getFree = false)
    (hfind : tx.view.tAddressKey.find? (fun r => r.UseTag == 0) = some row)
    (hu : env.faults.updateUseTag = true) :
    postAddressTx env tx w c =
      (false, (w.record StorageOp.GetFreeAddress).record
          (StorageOp.UpdateUseTag row.ID c.GetInt64ProductID),
        c.JSON ErrorCode.ErrorInternal) := by
  unfold postAddressTx SQLGetTAddressKeyColFreeForUpdate SQLUpdateTAddressKeyUseTag
  simp only [h, if_false, hf, Bool.false_eq_true, hfind, hu, if_true]

theorem postAddressTx_zero_rows (env : Env) (tx : Tx) (w : World) (c : Context)
    (row : DBTAddressKey)
    (h : c.GetInt64ProductID ≠ 0) (hf : env.faults.getFree = false)
    (hfind : tx.view.tAddressKey.find? (fun r => r.UseTag == 0) = some row)
    (hu : env.faults.updateUseTag = false) (hv : env.faults.rowVanished = true) :
    postAddressTx env tx w c =
      (false, (w.record StorageOp.GetFreeAddress).record
          (StorageOp.UpdateUseTag row.ID c.GetInt64ProductID),
        c.JSON ErrorCode.ErrorInternal) := by
  unfold postAddressTx SQLGetTAddressKeyColFreeForUpdate SQLUpdateTAddressKeyUseTag
  simp [h, hf, hfind, hu, hv]

theorem postAddressTx_commit_error (env : Env) (tx : Tx) (w : World) (c : Context)
    (row : DBTAddressKey)
    (h : c.GetInt64ProductID ≠ 0) (hf : env.faults.getFree = false)
    (hfind : tx.view.tAddressKey.find? (fun r => r.UseTag == 0) = some row)
    (hu : env.faults.updateUseTag = false) (hv : env.faults.rowVanished = false)
    (hc : env.faults.commit = true) :
    postAddressTx env tx w c =
      (false, ((w.record StorageOp.GetFreeAddress).record
          (StorageOp.UpdateUseTag row.ID c.GetInt64ProductID)).record (StorageOp.Commit false),
        c.JSON ErrorCode.ErrorInternal) := by
  have hcount := find_free_count tx.view.tAddressKey row hfind
  unfold postAddressTx SQLGetTAddressKeyColFreeForUpdate SQLUpdateTAddressKeyUseTag Commit
  simp only [h, if_false, hf, Bool.false_eq_true, hfind, hu, hv, hcount, hc, if_true]

theorem postAddressTx_success (env : Env) (tx : Tx) (w : World) (c : Context)
    (row : DBTAddressKey)
    (h : c.GetInt64ProductID ≠ 0) (hf : env.faults.getFree = false)
    (hfind : tx.view.tAddressKey.find? (fun r => r.UseTag == 0) = some row)
    (hu : env.faults.updateUseTag = false) (hv : env.faults.rowVanished = false)
    (hc : env.faults.commit = false) :
    postAddressTx env tx w c =
      (true,
        { db := { tx.view with
            tAddressKey := tagged tx.view.tAddressKey row.ID c.GetInt64ProductID },
          log := w.log ++ [StorageOp.GetFreeAddress,
            StorageOp.UpdateUseTag row.ID c.GetInt64ProductID, StorageOp.Commit true] },
        c.JSONAddress row.Address) := by
  have hcount := find_free_count tx.view.tAddressKey row hfind
  unfold postAddressTx SQLGetTAddressKeyColFreeForUpdate SQLUpdateTAddressKeyUseTag Commit
  simp only [h, if_false, hf, Bool.false_eq_true, hfind, hu, hv, hcount, hc]
  simp [World.record, tagged]

theorem bodyOf_pid (c : Context) : (bodyOf c).2.GetInt64ProductID = c.GetInt64ProductID := by
  unfold Context.GetInt64ProductID
  rw [(bodyOf_fields c).2.2.2.1]

theorem postAddress_bind_error (env : Env) (w : World) (c : Context)
    (h : (ShouldBindBodyWith c postAddressTags).1 = none) :
    postAddress env w c = (w, GinFillBindError (bodyOf c).2) := by
  have hc := ShouldBindBodyWith_ctx c postAddressTags
  unfold postAddress
  split
  · next c1 hb => rw [hb] at hc; simp only at hc; rw [hc]
  · next v c1 hb => rw [hb] at h; simp at h

theorem postAddress_begin_error (env : Env) (w : World) (c : Context)
    (h : (ShouldBindBodyWith c postAddressTags).1.isSome = true)
    (hf : env.faults.beginTx = true) :
    postAddress env w c =
      (w.record StorageOp.BeginTx, (bodyOf c).2.JSON ErrorCode.ErrorInternal) := by
  have hc := ShouldBindBodyWith_ctx c postAddressTags
  unfold postAddress
  split
  · next c1 hb => rw [hb] at h; simp at h
  · next v c1 hb =>
    rw [hb] at hc; simp only at hc
    simp [BeginTxx, hf, hc]

theorem postAddress_in_tx (env : Env) (w : World) (c : Context)
    (h : (ShouldBindBodyWith c postAddressTags).1.isSome = true)
    (hf : env.faults.beginTx = false) :
    postAddress env w c =
      (match postAddressTx env ⟨w.db⟩ (w.record StorageOp.BeginTx) (bodyOf c).2 with
        | (true, w2, c2) => (w2, c2)
        | (false, w2, c2) => (Rollback w2, c2)) := by
  have hc := ShouldBindBodyWith_ctx c postAddressTags
  unfold postAddress
  split
  · next c1 hb => rw [hb] at h; simp at h
  · next v c1 hb =>
    rw [hb] at hc; simp only at hc
    simp [BeginTxx, hf, hc]

/-- The storage calls of a failed transaction body and its answer. -/
theorem postAddress_failure_cases (env : Env) (w : World) (c : Context)
    (h : (ShouldBindBodyWith c postAddressTags).1.isSome = true)
    (hf : env.faults.beginTx = false)
    (hfail : c.GetInt64ProductID = 0 ∨ env.faults.getFree = true ∨
      w.db.tAddressKey.find? (fun r => r.UseTag == 0) = none ∨
      env.faults.updateUseTag = true ∨ env.faults.rowVanished = true ∨
      env.faults.commit = true) :
    ∃ ops code,
      postAddress env w c =
        ({ w with log := w.log ++ StorageOp.BeginTx :: (ops ++ [StorageOp.Rollback]) },
          (bodyOf c).2.JSON code) ∧
      StorageOp.Commit true ∉ ops ∧
      (code = ErrorCode.ErrorInternal ∨ code = ErrorCode.ErrorNoFreeAddress) ∧
      (code = ErrorCode.ErrorNoFreeAddress ↔
        (c.GetInt64ProductID ≠ 0 ∧ env.faults.getFree = false ∧
          w.db.tAddressKey.find? (fun r => r.UseTag == 0) = none)) := by
  rw [postAddress_in_tx env w c h hf]
  have hpid := bodyOf_pid c
  by_cases h0 : c.GetInt64ProductID = 0
  · rw [postAddressTx_pid_zero env _ _ _ (by rw [hpid]; exact h0)]
    refine ⟨[], ErrorCode.ErrorInternal, ?_, by simp, Or.inl rfl, ?_⟩
    · simp [Rollback, World.record]
    · simp [h0]
  have h0b : (bodyOf c).2.GetInt64ProductID ≠ 0 := by rw [hpid]; exact h0
  by_cases h1 : env.faults.getFree = true
  · rw [postAddressTx_select_error env _ _ _ h0b h1]
    refine ⟨[StorageOp.GetFreeAddress], ErrorCode.ErrorInternal, ?_, by simp, Or.inl rfl, ?_⟩
    · simp [Rollback, World.record]
    · simp [h1]
  have h1b : env.faults.getFree = false := by simpa using h1
  cases hfind : w.db.tAddressKey.find? (fun r => r.UseTag == 0) with
  | none =>
    rw [postAddressTx_exhausted env _ _ _ h0b h1b hfind]
    refine ⟨[StorageOp.GetFreeAddress], ErrorCode.ErrorNoFreeAddress, ?_, by simp, Or.inr rfl, ?_⟩
    · simp [Rollback, World.record]
    · simp [h0, h1b]
  | some row =>
    by_cases h2 : env.faults.updateUseTag = true
    · rw [postAddressTx_update_error env _ _ _ row h0b h1b hfind h2]
      refine ⟨[StorageOp.GetFreeAddress, StorageOp.UpdateUseTag row.ID c.GetInt64ProductID],
        ErrorCode.ErrorInternal, ?_, by simp, Or.inl rfl, ?_⟩
      · simp [Rollback, World.record, hpid]
      · simp
    have h2b : env.faults.updateUseTag = false := by simpa using h2
    by_cases h3 : env.faults.rowVanished = true
    · rw [postAddressTx_zero_rows env _ _ _ row h0b h1b hfind h2b h3]
      refine ⟨[StorageOp.GetFreeAddress, StorageOp.UpdateUseTag row.ID c.GetInt64ProductID],
        ErrorCode.ErrorInternal, ?_, by simp, Or.inl rfl, ?_⟩
      · simp [Rollback, World.record, hpid]
      · simp
    have h3b : env.faults.rowVanished = false := by simpa using h3
    have h4 : env.faults.commit = true := by
      rcases hfail with e | e | e | e | e | e
      · exact absurd e h0
      · exact absurd e h1
      · rw [hfind] at e; simp at e
      · exact absurd e h2
      · exact absurd e h3
      · exact e
    rw [postAddressTx_commit_error env _ _ _ row h0b h1b hfind h2b h3b h4]
    refine ⟨[StorageOp.GetFreeAddress, StorageOp.UpdateUseTag row.ID c.GetInt64ProductID,
      StorageOp.Commit false], ErrorCode.ErrorInternal, ?_, by simp, Or.inl rfl, ?_⟩
    · simp [Rollback, World.record, hpid]
    · simp

theorem postAddress_success_case (env : Env) (w : World) (c : Context) (row : DBTAddressKey)
    (h : (ShouldBindBodyWith c postAddressTags).1.isSome = true)
    (hf : env.faults.beginTx = false)
    (h0 : c.GetInt64ProductID ≠ 0) (h1 : env.faults.getFree = false)
    (hfind : w.db.tAddressKey.find? (fun r => r.UseTag == 0) = some row)
    (h2 : env.faults.updateUseTag = false) (h3 : env.faults.rowVanished = false)
    (h4 : env.faults.commit = false) :
    postAddress env w c =
      ({ db := { w.db with tAddressKey := tagged w.db.tAddressKey row.ID c.GetInt64ProductID },
         log := w.log ++ [StorageOp.BeginTx, StorageOp.GetFreeAddress,
            StorageOp.UpdateUseTag row.ID c.GetInt64ProductID, StorageOp.Commit true] },
        (bodyOf c).2.JSONAddress row.Address) := by
  rw [postAddress_in_tx env w c h hf]
  have hpid := bodyOf_pid c
  rw [postAddressTx_success env _ _ _ row (by rw [hpid]; exact h0) h1 hfind h2 h3 h4]
  simp [World.record, hpid]

theorem postAddress_outcome (env : Env) (w : World) (c : Context) :
    (∃ code, code ≠ ErrorCode.ErrorSuccess ∧ answered c (postAddress env w c).2 code ∧
      (postAddress env w c).1.db = w.db ∧
      StorageOp.Commit true ∉ newOps w (postAddress env w c).1 ∧
      (code = ErrorCode.ErrorNoFreeAddress ↔
        ((ShouldBindBodyWith c postAddressTags).1.isSome = true ∧ env.faults.beginTx = false ∧
          c.GetInt64ProductID ≠ 0 ∧ env.faults.getFree = false ∧
          w.db.tAddressKey.find? (fun r => r.UseTag == 0) = none)) ∧
      (((ShouldBindBodyWith c postAddressTags).1 = none ∧ code = ErrorCode.ErrorBind ∧
          newOps w (postAddress env w c).1 = []) ∨
       ((ShouldBindBodyWith c postAddressTags).1.isSome = true ∧ env.faults.beginTx = true ∧
          code = ErrorCode.ErrorInternal ∧
          newOps w (postAddress env w c).1 = [StorageOp.BeginTx]) ∨
       ((ShouldBindBodyWith c postAddressTags).1.isSome = true ∧ env.faults.beginTx = false ∧
          ∃ ops, newOps w (postAddress env w c).1 =
            StorageOp.BeginTx :: (ops ++ [StorageOp.Rollback])))) ∨
    (∃ row, (ShouldBindBodyWith c postAddressTags).1.isSome = true ∧
      env.faults.beginTx = false ∧ env.faults.getFree = false ∧
      env.faults.updateUseTag = false ∧ env.faults.rowVanished = false ∧
      env.faults.commit = false ∧
      c.GetInt64ProductID ≠ 0 ∧
      w.db.tAddressKey.find? (fun r => r.UseTag == 0) = some row ∧
      postAddress env w c =
        ({ db := { w.db with
              tAddressKey := tagged w.db.tAddressKey row.ID c.GetInt64ProductID },
           log := w.log ++ [StorageOp.BeginTx, StorageOp.GetFreeAddress,
              StorageOp.UpdateUseTag row.ID c.GetInt64ProductID, StorageOp.Commit true] },
          (bodyOf c).2.JSONAddress row.Address)) := by
  have hwr := (bodyOf_fields c).1
  cases hb : (ShouldBindBodyWith c postAddressTags).1 with
  | none =>
    left
    rw [postAddress_bind_error env w c hb]
    refine ⟨ErrorCode.ErrorBind, by decide, ?_, rfl, ?_, ?_, Or.inl ⟨rfl, rfl, ?_⟩⟩
    · simp [answered, GinFillBindError, Context.JSON, hwr]
    · simp [newOps]
    · simp
    · simp [newOps]
  | some vals =>
    have hs : (ShouldBindBodyWith c postAddressTags).1.isSome = true := by rw [hb]; rfl
    by_cases hf : env.faults.beginTx = true
    · left
      rw [postAddress_begin_error env w c hs hf]
      refine ⟨ErrorCode.ErrorInternal, by decide, ?_, rfl, ?_, ?_,
        Or.inr (Or.inl ⟨rfl, hf, rfl, ?_⟩)⟩
      · simp [answered, Context.JSON, hwr]
      · simp [newOps, World.record]
      · simp [hf]
      · simp [newOps, World.record]
    have hfb : env.faults.beginTx = false := by simpa using hf
    by_cases hfail : c.GetInt64ProductID = 0 ∨ env.faults.getFree = true ∨
        w.db.tAddressKey.find? (fun r => r.UseTag == 0) = none ∨
        env.faults.updateUseTag = true ∨ env.faults.rowVanished = true ∨
        env.faults.commit = true
    · left
      obtain ⟨ops, code, hpa, hnc, hcode, hiff⟩ := postAddress_failure_cases env w c hs hfb hfail
      rw [hpa]
      refine ⟨code, ?_, ?_, rfl, ?_, ?_, Or.inr (Or.inr ⟨rfl, hfb, ops, ?_⟩)⟩
      · rcases hcode with e | e <;> rw [e] <;> decide
      · simp [answered, Context.JSON, hwr]
      · simp only [newOps, List.drop_left, List.mem_cons, List.mem_append, List.mem_singleton]
        rintro (e | e | e)
        · exact absurd e (by decide)
        · exact hnc e
        · exact absurd e (by decide)
      · rw [hiff]
        constructor
        · intro hx; exact ⟨rfl, hfb, hx⟩
        · intro hx; exact hx.2.2
      · simp [newOps]
    · right
      simp only [not_or] at hfail
      obtain ⟨h0, h1, h2, h3, h4, h5⟩ := hfail
      cases hfind : w.db.tAddressKey.find? (fun r => r.UseTag == 0) with
      | none => exact absurd hfind h2
      | some row =>
        have h1b : env.faults.getFree = false := by simpa using h1
        have h3b : env.faults.updateUseTag = false := by simpa using h3
        have h4b : env.faults.rowVanished = false := by simpa using h4
        have h5b : env.faults.commit = false := by simpa using h5
        exact ⟨row, rfl, hfb, h1b, h3b, h4b, h5b, h0, rfl,
          postAddress_success_case env w c row hs hfb h0 h1b hfind h3b h4b h5b⟩

/-! ## The pool -/

theorem tagged_split (pre post : List DBTAddressKey) (row : DBTAddressKey) (useTag : Int)
    (hnodup : ((pre ++ row :: post).map (fun r => r.ID)).Nodup) :
    tagged (pre ++ row :: post) row.ID useTag =
      pre ++ { row with UseTag := useTag } :: post := by
  simp only [List.map_append, List.map_cons] at hnodup
  rw [List.nodup_append] at hnodup
  obtain ⟨-, hright, hdisj⟩ := hnodup
  rw [List.nodup_cons] at hright
  have hpre : ∀ r ∈ pre, r.ID ≠ row.ID := by
    intro r hr e
    exact hdisj (List.mem_map.mpr ⟨r, hr, rfl⟩) (by rw [e]; exact List.mem_cons_self _ _)
  have hpost : ∀ r ∈ post, r.ID ≠ row.ID := by
    intro r hr e
    exact hright.1 (by rw [← e]; exact List.mem_map.mpr ⟨r, hr, rfl⟩)
  unfold tagged
  rw [List.map_append, List.map_cons]
  have e1 : pre.map (fun r => if r.ID = row.ID then { r with UseTag := useTag } else r) = pre := by
    rw [List.map_congr_left (g := fun r => r)]
    · exact List.map_id' pre
    · intro r hr; simp [hpre r hr]
  have e2 : post.map (fun r => if r.ID = row.ID then { r with UseTag := useTag } else r)
      = post := by
    rw [List.map_congr_left (g := fun r => r)]
    · exact List.map_id' post
    · intro r hr; simp [hpost r hr]
  rw [e1, e2]
  simp

theorem find_free_split (pool : List DBTAddressKey) (row : DBTAddressKey)
    (h : pool.find? (fun r => r.UseTag == 0) = some row) :
    row.UseTag = 0 ∧ ∃ pre post, pool = pre ++ row :: post ∧ ∀ r ∈ pre, r.UseTag ≠ 0 := by
  rw [List.find?_eq_some] at h
  obtain ⟨hrow, pre, post, hsplit, hpre⟩ := h
  refine ⟨by simpa using hrow, pre, post, hsplit, ?_⟩
  intro r hr
  have := hpre r hr
  simpa using this

theorem not_success_of_answered (c c2 : Context) (code : ErrorCode) (a : String)
    (h : answered c c2 code) : c2.written ≠ c.written ++ [⟨ErrorCode.ErrorSuccess, some a⟩] := by
  unfold answered at h
  rw [h]
  simp

/-- C5: when `postAddress` answers success with the address `a`, on a pool
whose row ids are pairwise different (the primary key): the pool splits as
`pre ++ row :: post` where `row` had an unset claim-tag and carries `a`, the
caller identity is non-zero, and the database afterwards differs only in that
this one row now carries the caller identity as its claim-tag (so it is no
longer free).  And whatever a call of `postAddress` answers, a row that was
claimed before the call is found unchanged at the same position afterwards. -/
theorem postAddress_success_claims_one_free_row (env : Env) (w : World) (c : Context)
    (a : String)
    (hnodup : (w.db.tAddressKey.map (fun r => r.ID)).Nodup)
    (hsucc : (postAddress env w c).2.written =
      c.written ++ [⟨ErrorCode.ErrorSuccess, some a⟩]) :
    (∃ pre row post, w.db.tAddressKey = pre ++ row :: post ∧
      row.UseTag = 0 ∧ row.Address = a ∧ c.GetInt64ProductID ≠ 0 ∧
      (postAddress env w c).1.db =
        { w.db with
          tAddressKey := pre ++ { row with UseTag := c.GetInt64ProductID } :: post } ∧
      freeRows (postAddress env w c).1.db.tAddressKey = freeRows pre ++ freeRows post) ∧
    (∀ (env2 : Env) (c2 : Context) (i : Nat) (r : DBTAddressKey),
      w.db.tAddressKey[i]? = some r → r.UseTag ≠ 0 →
      (postAddress env2 w c2).1.db.tAddressKey[i]? = some r) := by
  constructor
  · rcases postAddress_outcome env w c with ⟨code, -, hans, -⟩ | ⟨row, -, -, -, -, -, -, h0, hfind, hpa⟩
    · exact absurd hsucc (not_success_of_answered c _ code a hans)
    · obtain ⟨hfree, pre, post, hsplit, -⟩ := find_free_split _ row hfind
      have haddr : row.Address = a := by
        rw [hpa] at hsucc
        simp only [Context.JSONAddress, (bodyOf_fields c).1] at hsucc
        simpa using hsucc
      have htag : tagged w.db.tAddressKey row.ID c.GetInt64ProductID =
          pre ++ { row with UseTag := c.GetInt64ProductID } :: post := by
        rw [hsplit] at hnodup ⊢
        exact tagged_split pre post row _ hnodup
      refine ⟨pre, row, post, hsplit, hfree, haddr, h0, ?_, ?_⟩
      · rw [hpa, htag]
      · rw [hpa]
        simp only [htag, freeRows, List.filter_append, List.filter_cons]
        simp [h0]
  · intro env2 c2 i r hi hr
    rcases postAddress_outcome env2 w c2 with ⟨code, -, -, hdb, -⟩ | ⟨row, -, -, -, -, -, -, h0, hfind, hpa⟩
    · rw [hdb]; exact hi
    · rw [hpa]
      simp only [tagged, List.getElem?_map, hi, Option.map_some']
      have hne : r.ID ≠ row.ID := by
        intro e
        obtain ⟨hfree, pre, post, hsplit, -⟩ := find_free_split _ row hfind
        have hmem : r ∈ w.db.tAddressKey := List.getElem?_mem hi
        have hrow : row ∈ w.db.tAddressKey := List.mem_of_find?_eq_some hfind
        have : r = row := by
          have hinj := List.inj_on_of_nodup_map hnodup
          exact hinj hmem hrow e
        rw [this] at hr
        exact hr hfree
      simp [hne]

/-- C7: for a well-formed authenticated call of `postAddress` (the body binds,
the attached identity is non-zero) with no storage failure: the answer is
`no_free_resource`, without an address, exactly when no pool row has an unset
claim-tag; and when a free row exists (row ids pairwise different) the call
answers success with the address of one free row and tags exactly that row
with the caller identity, leaving the rest of the database as it was. -/
theorem postAddress_exhausted_iff_no_free_row (env : Env) (w : World) (c : Context)
    (hauth : authenticated c) (hf : env.faults = Faults.none) :
    (answered c (postAddress env w c).2 ErrorCode.ErrorNoFreeAddress ↔
      ∀ r ∈ w.db.tAddressKey, r.UseTag ≠ 0) ∧
    ((∃ r ∈ w.db.tAddressKey, r.UseTag = 0) →
      (w.db.tAddressKey.map (fun r => r.ID)).Nodup →
      ∃ pre row post, w.db.tAddressKey = pre ++ row :: post ∧ row.UseTag = 0 ∧
        (postAddress env w c).2.written =
          c.written ++ [⟨ErrorCode.ErrorSuccess, some row.Address⟩] ∧
        (postAddress env w c).1.db =
          { w.db with
            tAddressKey := pre ++ { row with UseTag := c.GetInt64ProductID } :: post }) := by
  obtain ⟨hs, h0⟩ := hauth
  have f1 : env.faults.beginTx = false := by rw [hf]; rfl
  have f2 : env.faults.getFree = false := by rw [hf]; rfl
  have f3 : env.faults.updateUseTag = false := by rw [hf]; rfl
  have f4 : env.faults.rowVanished = false := by rw [hf]; rfl
  have f5 : env.faults.commit = false := by rw [hf]; rfl
  have hnone : w.db.tAddressKey.find? (fun r => r.UseTag == 0) = none ↔
      ∀ r ∈ w.db.tAddressKey, r.UseTag ≠ 0 := by
    rw [List.find?_eq_none]
    constructor
    · intro h r hr; simpa using h r hr
    · intro h r hr; simpa using h r hr
  constructor
  · rw [← hnone]
    rcases postAddress_outcome env w c with ⟨code, -, hans, -, -, hiff, -⟩ |
      ⟨row, -, -, -, -, -, -, -, hfind, hpa⟩
    · constructor
      · intro h
        have hc := answered_unique _ _ _ _ hans h
        exact (hiff.mp hc).2.2.2.2
      · intro h
        have hc := hiff.mpr ⟨hs, f1, h0, f2, h⟩
        rw [← hc]; exact hans
    · constructor
      · intro h
        exfalso
        refine not_success_of_answered c _ _ row.Address h ?_
        rw [hpa]
        simp [Context.JSONAddress, (bodyOf_fields c).1]
      · intro h
        rw [hfind] at h
        exact absurd h (by simp)
  · rintro ⟨r, hr, hfree⟩ hnodup
    cases hfind : w.db.tAddressKey.find? (fun r => r.UseTag == 0) with
    | none => exact absurd hfree (hnone.mp hfind r hr)
    | some row =>
      have hpa := postAddress_success_case env w c row hs f1 h0 f2 hfind f3 f4 f5
      obtain ⟨hrow, pre, post, hsplit, -⟩ := find_free_split _ row hfind
      have htag : tagged w.db.tAddressKey row.ID c.GetInt64ProductID =
          pre ++ { row with UseTag := c.GetInt64ProductID } :: post := by
        rw [hsplit] at hnodup ⊢
        exact tagged_split pre post row _ hnodup
      refine ⟨pre, row, post, hsplit, hrow, ?_, ?_⟩
      · rw [hpa]
        simp [Context.JSONAddress, (bodyOf_fields c).1]
      · rw [hpa, htag]

/-- C8: a call of `postAddress` that does not answer success answers one error
envelope without an address, leaves the committed database exactly as it was
and performs no successful commit; if the transaction was opened, its storage
calls start with `BeginTx` and end with `Rollback`.  A successful commit occurs
exactly on the success path.  An update that reports zero (or fewer) rows makes
the transaction body answer `internal_error` without setting `isComment`. -/
theorem postAddress_failure_rolls_back (env : Env) (w : World) (c : Context)
    (hfail : ∀ a, (postAddress env w c).2.written ≠
      c.written ++ [⟨ErrorCode.ErrorSuccess, some a⟩]) :
    (∃ code, code ≠ ErrorCode.ErrorSuccess ∧ answered c (postAddress env w c).2 code) ∧
    (postAddress env w c).1.db = w.db ∧
    StorageOp.Commit true ∉ newOps w (postAddress env w c).1 ∧
    (((ShouldBindBodyWith c postAddressTags).1.isSome = true ∧ env.faults.beginTx = false) →
      ∃ ops, newOps w (postAddress env w c).1 =
        StorageOp.BeginTx :: (ops ++ [StorageOp.Rollback])) ∧
    (∀ (env2 : Env) (w2 : World) (c2 : Context),
      StorageOp.Commit true ∈ newOps w2 (postAddress env2 w2 c2).1 ↔
        ∃ a, (postAddress env2 w2 c2).2.written =
          c2.written ++ [⟨ErrorCode.ErrorSuccess, some a⟩]) ∧
    (∀ (env2 : Env) (tx : Tx) (w1 : World) (c1 : Context) (row : DBTAddressKey) (wa : World)
        (count : Int) (tx1 : Tx) (wb : World),
      c1.GetInt64ProductID ≠ 0 →
      SQLGetTAddressKeyColFreeForUpdate env2.faults tx w1 = (some (some row), wa) →
      SQLUpdateTAddressKeyUseTag env2.faults tx wa row.ID c1.GetInt64ProductID =
        (some (count, tx1), wb) →
      count ≤ 0 →
      postAddressTx env2 tx w1 c1 = (false, wb, c1.JSON ErrorCode.ErrorInternal)) := by
  refine ⟨?_, ?_, ?_, ?_, ?_, ?_⟩
  · rcases postAddress_outcome env w c with ⟨code, hne, hans, -⟩ |
      ⟨row, -, -, -, -, -, -, -, -, hpa⟩
    · exact ⟨code, hne, hans⟩
    · exfalso
      refine hfail row.Address ?_
      rw [hpa]
      simp [Context.JSONAddress, (bodyOf_fields c).1]
  · rcases postAddress_outcome env w c with ⟨code, -, -, hdb, -⟩ |
      ⟨row, -, -, -, -, -, -, -, -, hpa⟩
    · exact hdb
    · exfalso
      refine hfail row.Address ?_
      rw [hpa]
      simp [Context.JSONAddress, (bodyOf_fields c).1]
  · rcases postAddress_outcome env w c with ⟨code, -, -, -, hnc, -⟩ |
      ⟨row, -, -, -, -, -, -, -, -, hpa⟩
    · exact hnc
    · exfalso
      refine hfail row.Address ?_
      rw [hpa]
      simp [Context.JSONAddress, (bodyOf_fields c).1]
  · rintro ⟨hs, hb⟩
    rcases postAddress_outcome env w c with ⟨code, -, -, -, -, -, hshape⟩ |
      ⟨row, -, -, -, -, -, -, -, -, hpa⟩
    · rcases hshape with ⟨h1, -⟩ | ⟨-, h1, -⟩ | ⟨-, -, hops⟩
      · rw [h1] at hs; simp at hs
      · rw [hb] at h1; exact absurd h1 (by decide)
      · exact hops
    · exfalso
      refine hfail row.Address ?_
      rw [hpa]
      simp [Context.JSONAddress, (bodyOf_fields c).1]
  · intro env2 w2 c2
    rcases postAddress_outcome env2 w2 c2 with ⟨code, -, hans, -, hnc, -⟩ |
      ⟨row, -, -, -, -, -, -, -, -, hpa⟩
    · constructor
      · intro h; exact absurd h hnc
      · rintro ⟨a, ha⟩
        exact absurd ha (not_success_of_answered c2 _ code a hans)
    · constructor
      · intro _
        refine ⟨row.Address, ?_⟩
        rw [hpa]
        simp [Context.JSONAddress, (bodyOf_fields c2).1]
      · intro _
        rw [hpa]
        simp [newOps]
  · intro env2 tx w1 c1 row wa count tx1 wb h0 hsel hupd hcount
    unfold postAddressTx
    simp only [h0, if_false, hsel, hupd, hcount, if_true]

/-! ## A run of `postAddress` calls -/

theorem claimedIDs_append (a b : List StorageOp) :
    claimedIDs (a ++ b) = claimedIDs a ++ claimedIDs b := by
  induction a with
  | nil => rfl
  | cons op rest ih =>
    cases op <;> simp [claimedIDs, ih]

theorem find_free_nil (pool : List DBTAddressKey) (h : freeRows pool = []) :
    pool.find? (fun r => r.UseTag == 0) = none := by
  unfold freeRows at h
  rw [List.filter_eq_nil_iff] at h
  rw [List.find?_eq_none]
  exact h

theorem find_free_cons (pool : List DBTAddressKey) (row : DBTAddressKey)
    (rest : List DBTAddressKey) (h : freeRows pool = row :: rest) :
    pool.find? (fun r => r.UseTag == 0) = some row := by
  induction pool with
  | nil => simp [freeRows] at h
  | cons r0 pool ih =>
    unfold freeRows at h ih
    rw [List.filter_cons] at h
    rw [List.find?_cons]
    by_cases hp : (r0.UseTag == 0) = true
    · simp only [hp, if_true, List.cons.injEq] at h
      obtain ⟨e, -⟩ := h
      subst e
      simp [hp]
    · simp only [hp, if_false] at h
      simp only [hp]
      exact ih h

theorem freeRows_tagged (pool : List DBTAddressKey) (row : DBTAddressKey) (useTag : Int)
    (hnodup : (pool.map (fun r => r.ID)).Nodup)
    (hfind : pool.find? (fun r => r.UseTag == 0) = some row) (h0 : useTag ≠ 0) :
    freeRows (tagged pool row.ID useTag) = (freeRows pool).tail ∧
    (tagged pool row.ID useTag).map (fun r => r.ID) = pool.map (fun r => r.ID) := by
  obtain ⟨hrow, pre, post, hsplit, hpre⟩ := find_free_split pool row hfind
  have hpre2 : freeRows pre = [] := by
    unfold freeRows
    rw [List.filter_eq_nil_iff]
    intro r hr
    simpa using hpre r hr
  subst hsplit
  rw [tagged_split pre post row useTag hnodup]
  constructor
  · unfold freeRows at hpre2 ⊢
    simp [List.filter_append, List.filter_cons, hpre2, h0, hrow]
  · simp

theorem postAddress_exhausted_case (env : Env) (w : World) (c : Context)
    (hauth : authenticated c) (hf : env.faults = Faults.none)
    (hfree : freeRows w.db.tAddressKey = []) :
    postAddress env w c =
      ({ w with log := w.log ++
          [StorageOp.BeginTx, StorageOp.GetFreeAddress, StorageOp.Rollback] },
        (bodyOf c).2.JSON ErrorCode.ErrorNoFreeAddress) := by
  obtain ⟨hs, h0⟩ := hauth
  rw [postAddress_in_tx env w c hs (by rw [hf]; rfl)]
  rw [postAddressTx_exhausted env _ _ _ (by rw [bodyOf_pid]; exact h0) (by rw [hf]; rfl)
    (find_free_nil _ hfree)]
  simp [Rollback, World.record]

theorem serve_postAddress_run (calls : List (Env × Context)) (w : World)
    (hnodup : (w.db.tAddressKey.map (fun r => r.ID)).Nodup)
    (hauth : ∀ x ∈ calls, x.1.faults = Faults.none ∧ authenticated x.2) :
    (serve postAddress w calls).2.length = calls.length ∧
    ((calls.map Prod.snd).zip (serve postAddress w calls).2).countP
        (fun p => isSuccess p.1 p.2) =
      min (freeRows w.db.tAddressKey).length calls.length ∧
    ((calls.map Prod.snd).zip (serve postAddress w calls).2).countP
        (fun p => isExhausted p.1 p.2) =
      calls.length - (freeRows w.db.tAddressKey).length ∧
    freeRows (serve postAddress w calls).1.db.tAddressKey =
      (freeRows w.db.tAddressKey).drop calls.length ∧
    ∃ ops, (serve postAddress w calls).1.log = w.log ++ ops ∧
      claimedIDs ops =
        ((freeRows w.db.tAddressKey).take calls.length).map (fun r => r.ID) := by
  induction calls generalizing w with
  | nil => simp [serve, claimedIDs]
  | cons x rest ih =>
    obtain ⟨env, c⟩ := x
    obtain ⟨hf, hau⟩ := hauth (env, c) (List.mem_cons_self _ _)
    have hrest : ∀ y ∈ rest, y.1.faults = Faults.none ∧ authenticated y.2 :=
      fun y hy => hauth y (List.mem_cons_of_mem _ hy)
    have hwr := (bodyOf_fields c).1
    simp only [serve, List.map_cons, List.zip_cons_cons, List.length_cons]
    cases hF : freeRows w.db.tAddressKey with
    | nil =>
      have hpa := postAddress_exhausted_case env w c hau hf hF
      have hdb : (postAddress env w c).1.db = w.db := by rw [hpa]
      obtain ⟨i1, i2, i3, i4, ops, i5, i6⟩ := ih (postAddress env w c).1 (by rw [hdb]; exact hnodup) hrest
      rw [hdb, hF] at i2 i3 i4 i6
      have hex : isExhausted c (postAddress env w c).2 = true := by
        rw [hpa]
        simp [isExhausted, newResponses, Context.JSON, hwr]
      have hsu : isSuccess c (postAddress env w c).2 = false := by
        rw [hpa]
        simp [isSuccess, newResponses, Context.JSON, hwr]
      refine ⟨by rw [i1], ?_, ?_, ?_, ?_⟩
      · rw [List.countP_cons, i2]; simp [hsu]
      · rw [List.countP_cons, i3]; simp [hex]
      · rw [i4]; simp
      · refine ⟨[StorageOp.BeginTx, StorageOp.GetFreeAddress, StorageOp.Rollback] ++ ops, ?_, ?_⟩
        · rw [i5, hpa]; simp
        · rw [claimedIDs_append, i6]; simp [claimedIDs]
    | cons row F =>
      obtain ⟨hs, h0⟩ := hau
      have hfind := find_free_cons _ row F hF
      have hpa := postAddress_success_case env w c row hs (by rw [hf]; rfl) h0 (by rw [hf]; rfl)
        hfind (by rw [hf]; rfl) (by rw [hf]; rfl) (by rw [hf]; rfl)
      obtain ⟨ht1, ht2⟩ := freeRows_tagged _ row c.GetInt64ProductID hnodup hfind h0
      have hpool : (postAddress env w c).1.db.tAddressKey =
          tagged w.db.tAddressKey row.ID c.GetInt64ProductID := by rw [hpa]
      obtain ⟨i1, i2, i3, i4, ops, i5, i6⟩ := ih (postAddress env w c).1
        (by rw [hpool, ht2]; exact hnodup) hrest
      rw [hpool, ht1, hF] at i2 i3 i4 i6
      simp only [List.tail_cons] at i2 i3 i4 i6
      have hsu : isSuccess c (postAddress env w c).2 = true := by
        rw [hpa]
        simp [isSuccess, newResponses, Context.JSONAddress, hwr]
      have hex : isExhausted c (postAddress env w c).2 = false := by
        rw [hpa]
        simp [isExhausted, newResponses, Context.JSONAddress, hwr]
      refine ⟨by rw [i1], ?_, ?_, ?_, ?_⟩
      · rw [List.countP_cons, i2]
        simp only [hsu, if_true, List.length_cons]
        omega
      · rw [List.countP_cons, i3]
        simp only [hex, Bool.false_eq_true, if_false, List.length_cons]
        omega
      · rw [i4]; simp
      · refine ⟨[StorageOp.BeginTx, StorageOp.GetFreeAddress,
          StorageOp.UpdateUseTag row.ID c.GetInt64ProductID, StorageOp.Commit true] ++ ops, ?_, ?_⟩
        · rw [i5, hpa]; simp
        · rw [claimedIDs_append, i6]; simp [claimedIDs]

/-- C6: a pool with `R` free rows (row ids pairwise different) serves `C > R`
authenticated `postAddress` calls one after the other, each run to completion,
with no storage failure: exactly `R` calls answer success and exactly `C - R`
answer `no_free_resource`; the rows tagged by the run are exactly the rows that
were free at the start, each tagged once (their ids are pairwise different),
and no free row is left. -/
theorem postAddress_pool_run (w : World) (calls : List (Env × Context))
    (hnodup : (w.db.tAddressKey.map (fun r => r.ID)).Nodup)
    (hauth : ∀ x ∈ calls, x.1.faults = Faults.none ∧ authenticated x.2)
    (hmore : (freeRows w.db.tAddressKey).length < calls.length) :
    (serve postAddress w calls).2.length = calls.length ∧
    ((calls.map Prod.snd).zip (serve postAddress w calls).2).countP
        (fun p => isSuccess p.1 p.2) = (freeRows w.db.tAddressKey).length ∧
    ((calls.map Prod.snd).zip (serve postAddress w calls).2).countP
        (fun p => isExhausted p.1 p.2) =
      calls.length - (freeRows w.db.tAddressKey).length ∧
    claimedIDs (newOps w (serve postAddress w calls).1) =
      (freeRows w.db.tAddressKey).map (fun r => r.ID) ∧
    (claimedIDs (newOps w (serve postAddress w calls).1)).Nodup ∧
    (claimedIDs (newOps w (serve postAddress w calls).1)).length =
      (freeRows w.db.tAddressKey).length ∧
    freeRows (serve postAddress w calls).1.db.tAddressKey = [] := by
  obtain ⟨i1, i2, i3, i4, ops, i5, i6⟩ := serve_postAddress_run calls w hnodup hauth
  have hops := newOps_of_log w _ ops i5
  have htake : (freeRows w.db.tAddressKey).take calls.length = freeRows w.db.tAddressKey :=
    List.take_of_length_le (by omega)
  rw [htake] at i6
  rw [hops, i6]
  refine ⟨i1, ?_, i3, rfl, ?_, by simp, ?_⟩
  · rw [i2]; omega
  · exact List.Nodup.sublist ((List.filter_sublist _).map _) hnodup
  · rw [i4]; exact List.drop_of_length_le (by omega)

/-! ## The chain of `POST /api/address` -/

theorem runChain_address (env : Env) (w : World) (c : Context) :
    runChain env (Start "/api/address") w c =
      if (productReq env w c).2.aborted = true then productReq env w c
      else postAddress env (productReq env w c).1 (productReq env w c).2 := by
  simp only [Start, if_true, runChain]
  split
  · rfl
  · split <;> rfl

theorem ShouldBindBodyWith_of_body (c c2 : Context) (tags : List FieldTag)
    (h : (bodyOf c2).1 = (bodyOf c).1) :
    (ShouldBindBodyWith c2 tags).1 = (ShouldBindBodyWith c tags).1 := by
  unfold ShouldBindBodyWith
  rcases hb : bodyOf c with ⟨b1, c1⟩
  rcases hb2 : bodyOf c2 with ⟨b2, c3⟩
  rw [hb, hb2] at h
  simp only at h
  subst h
  cases b2 with
  | none => rfl
  | some b =>
    simp only
    cases b.members with
    | none => rfl
    | some ms =>
      simp only
      cases jsonDecodeStruct tags ms (tags.map (fun _ => "")) with
      | none => rfl
      | some vals =>
        simp only
        split <;> rfl

theorem bodyOf_with_productID (c : Context) (b : Body) (c1 : Context) (id : Option Int)
    (h : bodyOf c = (some b, c1)) :
    (bodyOf { c1 with productID := id }).1 = (bodyOf c).1 := by
  have hf := (bodyOf_fields c).2.2.2.2
  rw [h] at hf ⊢
  simp only at hf
  unfold bodyOf
  simp [hf]

/-- C9 (amended): on `POST /api/address`, a request whose body fails the
binding of `productReq` (`app_name`, `nonce` or `sign` missing, empty or not a
string) is answered with a validation error and the world, storage log
included, is exactly as before: no lookup, no nonce insert, no transaction.  A
request that `productReq` admits but whose body fails the binding of
`postAddress` (`symbol` missing) is answered with a validation error by
`postAddress` before any transaction is opened: the storage calls of the
request are exactly the application lookup and the nonce insert made by
`productReq`, and the product table and the pool are unchanged. -/
theorem apiAddress_validation_before_own_storage (env : Env) (w : World) (c : Context) :
    ((bindProductReq c).1 = none →
      answered c (runChain env (Start "/api/address") w c).2 ErrorCode.ErrorBind ∧
      (runChain env (Start "/api/address") w c).2.aborted = true ∧
      (runChain env (Start "/api/address") w c).1 = w) ∧
    (∀ req, (bindProductReq c).1 = some req →
      (productReq env w c).2.aborted = false →
      (ShouldBindBodyWith c postAddressTags).1 = none →
      answered c (runChain env (Start "/api/address") w c).2 ErrorCode.ErrorBind ∧
      newOps w (runChain env (Start "/api/address") w c).1 =
        [StorageOp.GetProduct req.AppName, StorageOp.CreateNonce req.Nonce] ∧
      (runChain env (Start "/api/address") w c).1.db.tAddressKey = w.db.tAddressKey ∧
      (runChain env (Start "/api/address") w c).1.db.tProduct = w.db.tProduct ∧
      storedNonces (runChain env (Start "/api/address") w c).1 =
        storedNonces w ++ [req.Nonce]) := by
  rw [runChain_address]
  constructor
  · intro hb
    have hch : productReqChecks env w c =
        Except.error (w, (GinFillBindError (bodyOf c).2).Abort) := by
      have hc := bindProductReq_ctx c
      unfold productReqChecks productReqResolve
      rcases hbb : bindProductReq c with ⟨o, c1⟩
      rw [hbb] at hb hc
      simp only at hb hc
      subst hb
      simp [hc]
    have hpr : productReq env w c = (w, (GinFillBindError (bodyOf c).2).Abort) := by
      unfold productReq; rw [hch]
    rw [hpr]
    simp [Context.Abort, answered, GinFillBindError, Context.JSON, (bodyOf_fields c).1]
  · intro req hb hab hsym
    rw [if_neg (by rw [hab]; decide)]
    cases hch : productReqChecks env w c with
    | error r =>
      have hpr : productReq env w c = r := by unfold productReq; rw [hch]
      rw [hpr, (productReqChecks_error env w c r hch).2.1] at hab
      exact absurd hab (by decide)
    | ok v =>
      obtain ⟨req0, productRow, w1, c2⟩ := v
      have hpr : productReq env w c = productReqNonce env req0 productRow w1 c2 := by
        unfold productReq; rw [hch]
      obtain ⟨hb0, hc, -, -, -, hw1, body, -, hbody, -⟩ :=
        productReqChecks_ok env w c req0 productRow w1 c2 hch
      have hreq : req0 = req := by rw [hb0] at hb; simpa using hb
      subst hreq
      obtain ⟨hlog, hcase⟩ := productReqNonce_cases env req0 productRow w1 c2
      rw [hpr] at hab
      rcases hcase with ⟨-, hab2, -⟩ | ⟨hdb, hctx⟩
      · rw [hab2] at hab; exact absurd hab (by decide)
      · rw [hpr]
        have hbo : bodyOf c = (some body, c2) := by
          rcases hbb : bodyOf c with ⟨o, cx⟩
          rw [hbb] at hbody hc
          simp only at hbody hc
          rw [hbody, hc]
        have hbind : (ShouldBindBodyWith (productReqNonce env req0 productRow w1 c2).2
            postAddressTags).1 = none := by
          rw [ShouldBindBodyWith_of_body c _ postAddressTags, hsym]
          rw [hctx]
          exact bodyOf_with_productID c body c2 _ hbo
        rw [postAddress_bind_error env _ _ hbind]
        have hwr : (bodyOf (productReqNonce env req0 productRow w1 c2).2).2.written
            = c.written := by
          rw [(bodyOf_fields _).1, hctx, hc]
          exact (bodyOf_fields c).1
        refine ⟨?_, ?_, ?_, ?_, ?_⟩
        · simp [answered, GinFillBindError, Context.JSON, hwr]
        · refine newOps_of_log w _ _ ?_
          rw [hlog, hw1]; simp [World.record]
        · rw [hdb, hw1]; rfl
        · rw [hdb, hw1]; rfl
        · unfold storedNonces
          rw [hdb, hw1]
          simp [World.record]

/-! ## Evaluations at concrete requests -/

/-- C1: the application `acme` has the allow-list `10.0.0.11`; a correctly
signed request from `10.0.0.1`, which is not the listed address but a substring
of the stored text, passes `strings.Contains` and is admitted: not aborted,
nothing written, identity 7 attached, nonce recorded. -/
theorem productReq_admits_substring_of_allow_list :
    ("10.0.0.1" : String) ≠ "10.0.0.11" ∧
    stringsContains "10.0.0.11" "10.0.0.1" = true ∧
    (productReq sampleEnv sampleWorld (sampleRequest "acme" "s3cr3t" "abc123" "10.0.0.1")).2.aborted
      = false ∧
    (productReq sampleEnv sampleWorld (sampleRequest "acme" "s3cr3t" "abc123" "10.0.0.1")).2.written
      = [] ∧
    (productReq sampleEnv sampleWorld
      (sampleRequest "acme" "s3cr3t" "abc123" "10.0.0.1")).2.productID = some 7 ∧
    storedNonces (productReq sampleEnv sampleWorld
      (sampleRequest "acme" "s3cr3t" "abc123" "10.0.0.1")).1 = ["abc123"] := by
  decide

/-- C10: a correctly signed request whose nonce has 41 characters is not
rejected at the parse step: it is admitted and the 41-character nonce is
written to the nonce store. -/
theorem productReq_records_long_nonce :
    longNonce.length = 41 ∧
    (productReq sampleEnv sampleWorld (sampleRequest "beta" "hunter2" longNonce "10.0.0.1")).2.aborted
      = false ∧
    (productReq sampleEnv sampleWorld (sampleRequest "beta" "hunter2" longNonce "10.0.0.1")).2.written
      = [] ∧
    storedNonces (productReq sampleEnv sampleWorld
      (sampleRequest "beta" "hunter2" longNonce "10.0.0.1")).1 = [longNonce] := by
  decide

/-- C9 (as stated, refuted): a validly signed body with `app_name`, `nonce` and
`sign` but no `symbol` is answered with a validation error, yet by then the
chain has looked the application up and inserted the nonce. -/
theorem apiAddress_missing_symbol_after_storage :
    (runChain sampleEnv (Start "/api/address") sampleWorld
      (newContext (some bodyWithoutSymbol) "10.0.0.11")).2.written
        = [⟨ErrorCode.ErrorBind, none⟩] ∧
    (runChain sampleEnv (Start "/api/address") sampleWorld
      (newContext (some bodyWithoutSymbol) "10.0.0.11")).1.log
        = [StorageOp.GetProduct "acme", StorageOp.CreateNonce "abc123"] ∧
    storedNonces sampleWorld = [] ∧
    storedNonces (runChain sampleEnv (Start "/api/address") sampleWorld
      (newContext (some bodyWithoutSymbol) "10.0.0.11")).1 = ["abc123"] := by
  decide

theorem apiAddress_validation_before_own_storage_witness :
    ((bindProductReq (newContext (some bodyWithoutSign) "10.0.0.11")).1 = none ∧
      (runChain sampleEnv (Start "/api/address") sampleWorld
        (newContext (some bodyWithoutSign) "10.0.0.11")).1 = sampleWorld) ∧
    ((ShouldBindBodyWith (newContext (some bodyWithoutSymbol) "10.0.0.11") postAddressTags).1
        = none ∧
      newOps sampleWorld (runChain sampleEnv (Start "/api/address") sampleWorld
        (newContext (some bodyWithoutSymbol) "10.0.0.11")).1 =
        [StorageOp.GetProduct "acme", StorageOp.CreateNonce "abc123"]) :=
  ⟨⟨by decide,
    ((apiAddress_validation_before_own_storage sampleEnv sampleWorld
      (newContext (some bodyWithoutSign) "10.0.0.11")).1 (by decide)).2.2⟩,
   ⟨by decide,
    ((apiAddress_validation_before_own_storage sampleEnv sampleWorld
      (newContext (some bodyWithoutSymbol) "10.0.0.11")).2
        ⟨"acme", "abc123", sampleSign "s3cr3t"
          [("app_name", JVal.str "acme"), ("nonce", JVal.str "abc123")]⟩
        (by decide) (by decide) (by decide)).2.1⟩⟩

theorem productReq_early_rejection_keeps_nonce_store_witness :
    answered (sampleRequest "acme" "s3cr3t" "abc123" "192.168.1.5")
      (productReq sampleEnv sampleWorld (sampleRequest "acme" "s3cr3t" "abc123" "192.168.1.5")).2
      ErrorCode.ErrorIPLimit ∧
    (productReq sampleEnv sampleWorld
      (sampleRequest "acme" "s3cr3t" "abc123" "192.168.1.5")).1.db = sampleWorld.db :=
  ⟨by decide,
    ((productReq_early_rejection_keeps_nonce_store sampleEnv sampleWorld
      (sampleRequest "acme" "s3cr3t" "abc123" "192.168.1.5")).1
        (Or.inl ⟨ErrorCode.ErrorIPLimit, by decide, by decide⟩)).2.1⟩

theorem productReq_signature_check_witness :
    productReqResolve sampleEnv sampleWorld (sampleRequest "beta" "hunter2" "n-1" "10.9.8.7") =
      Except.ok
        (⟨"beta", "n-1", "app_name=beta&nonce=n-1&symbol=eth&key=hunter2"⟩,
          ⟨8, "beta", "hunter2", ""⟩,
          sampleWorld.record (StorageOp.GetProduct "beta"),
          (bodyOf (sampleRequest "beta" "hunter2" "n-1" "10.9.8.7")).2) ∧
    productReqPayload (sampleWorld.record (StorageOp.GetProduct "beta"))
        (bodyOf (sampleRequest "beta" "hunter2" "n-1" "10.9.8.7")).2 =
      Except.ok
        ([("app_name", JVal.str "beta"), ("nonce", JVal.str "n-1"), ("symbol", JVal.str "eth"),
          ("sign", JVal.str "app_name=beta&nonce=n-1&symbol=eth&key=hunter2")],
          (bodyOf (sampleRequest "beta" "hunter2" "n-1" "10.9.8.7")).2) ∧
    productReq sampleEnv sampleWorld (sampleRequest "beta" "hunter2" "n-1" "10.9.8.7") =
      productReqNonce sampleEnv
        ⟨"beta", "n-1", "app_name=beta&nonce=n-1&symbol=eth&key=hunter2"⟩
        ⟨8, "beta", "hunter2", ""⟩
        (sampleWorld.record (StorageOp.GetProduct "beta"))
        (bodyOf (sampleRequest "beta" "hunter2" "n-1" "10.9.8.7")).2 :=
  ⟨by rfl, by rfl,
    (productReq_signature_check sampleEnv sampleWorld
      (sampleRequest "beta" "hunter2" "n-1" "10.9.8.7")
      ⟨"beta", "n-1", "app_name=beta&nonce=n-1&symbol=eth&key=hunter2"⟩
      ⟨8, "beta", "hunter2", ""⟩
      (sampleWorld.record (StorageOp.GetProduct "beta"))
      (bodyOf (sampleRequest "beta" "hunter2" "n-1" "10.9.8.7")).2
      [("app_name", JVal.str "beta"), ("nonce", JVal.str "n-1"), ("symbol", JVal.str "eth"),
        ("sign", JVal.str "app_name=beta&nonce=n-1&symbol=eth&key=hunter2")]
      (bodyOf (sampleRequest "beta" "hunter2" "n-1" "10.9.8.7")).2
      (by rfl) (by rfl)).2.2.1 (by rfl)⟩

theorem productReq_nonce_once_witness :
    allPass sampleWorld
      ([(sampleEnv, sampleRequest "beta" "hunter2" "n-0" "10.9.8.7")] ++
        (sampleEnv, sampleRequest "acme" "s3cr3t" "abc123" "10.0.0.11") ::
          ([] ++ [(sampleEnv, sampleRequest "beta" "hunter2" "abc123" "10.9.8.7")])) ∧
    nonceOf (sampleRequest "acme" "s3cr3t" "abc123" "10.0.0.11") = some "abc123" ∧
    nonceOf (sampleRequest "beta" "hunter2" "abc123" "10.9.8.7") = some "abc123" ∧
    "abc123" ∉ storedNonces sampleWorld ∧
    answered (sampleRequest "beta" "hunter2" "abc123" "10.9.8.7")
      (productReq sampleEnv
        (serve productReq
          (productReq sampleEnv
            (serve productReq sampleWorld
              [(sampleEnv, sampleRequest "beta" "hunter2" "n-0" "10.9.8.7")]).1
            (sampleRequest "acme" "s3cr3t" "abc123" "10.0.0.11")).1 []).1
        (sampleRequest "beta" "hunter2" "abc123" "10.9.8.7")).2
      ErrorCode.ErrorNonceRepeat :=
  ⟨⟨rfl, by decide, rfl, by decide, rfl, by decide, trivial⟩, by decide, by decide, by decide,
    (productReq_nonce_once sampleWorld
      [(sampleEnv, sampleRequest "beta" "hunter2" "n-0" "10.9.8.7")] []
      sampleEnv sampleEnv
      (sampleRequest "acme" "s3cr3t" "abc123" "10.0.0.11")
      (sampleRequest "beta" "hunter2" "abc123" "10.9.8.7") "abc123"
      ⟨rfl, by decide, rfl, by decide, rfl, by decide, trivial⟩
      (by decide) (by decide) (by decide) (by decide)).2.2.1⟩

theorem postAddress_success_claims_one_free_row_witness :
    (sampleWorld.db.tAddressKey.map (fun r => r.ID)).Nodup ∧
    (postAddress sampleEnv sampleWorld (sampleCall 7)).2.written =
      (sampleCall 7).written ++ [⟨ErrorCode.ErrorSuccess, some "0xaa"⟩] ∧
    (postAddress sampleEnv sampleWorld (sampleCall 9)).1.db.tAddressKey[1]? =
      some ⟨2, "0xbb", 8⟩ :=
  ⟨by decide, by decide,
    (postAddress_success_claims_one_free_row sampleEnv sampleWorld (sampleCall 7) "0xaa"
      (by decide) (by decide)).2 sampleEnv (sampleCall 9) 1 ⟨2, "0xbb", 8⟩ (by decide)
      (by decide)⟩

theorem postAddress_pool_run_witness :
    (sampleWorld.db.tAddressKey.map (fun r => r.ID)).Nodup ∧
    (freeRows sampleWorld.db.tAddressKey).length = 2 ∧ sampleCalls.length = 3 ∧
    ((sampleCalls.map Prod.snd).zip (serve postAddress sampleWorld sampleCalls).2).countP
      (fun p => isSuccess p.1 p.2) = (freeRows sampleWorld.db.tAddressKey).length ∧
    claimedIDs (newOps sampleWorld (serve postAddress sampleWorld sampleCalls).1) = [1, 3] :=
  ⟨by decide, by decide, by decide,
    (postAddress_pool_run sampleWorld sampleCalls (by decide) (by decide) (by decide)).2.1,
    by decide⟩

theorem postAddress_exhausted_iff_no_free_row_witness :
    authenticated (sampleCall 7) ∧ sampleEnv.faults = Faults.none ∧
    (answered (sampleCall 7)
        (postAddress sampleEnv ⟨⟨sampleProducts, [], [⟨2, "0xbb", 8⟩]⟩, []⟩ (sampleCall 7)).2
        ErrorCode.ErrorNoFreeAddress ↔
      ∀ r ∈ [(⟨2, "0xbb", 8⟩ : DBTAddressKey)], r.UseTag ≠ 0) :=
  ⟨by decide, by decide,
    (postAddress_exhausted_iff_no_free_row sampleEnv
      ⟨⟨sampleProducts, [], [⟨2, "0xbb", 8⟩]⟩, []⟩ (sampleCall 7) (by decide) (by decide)).1⟩

theorem postAddress_failure_rolls_back_witness :
    (postAddress vanishingEnv sampleWorld (sampleCall 7)).2.written =
      [⟨ErrorCode.ErrorInternal, none⟩] ∧
    newOps sampleWorld (postAddress vanishingEnv sampleWorld (sampleCall 7)).1 =
      [StorageOp.BeginTx, StorageOp.GetFreeAddress, StorageOp.UpdateUseTag 1 7,
        StorageOp.Rollback] ∧
    (postAddress vanishingEnv sampleWorld (sampleCall 7)).1.db = sampleWorld.db :=
  ⟨by decide, by decide,
    (postAddress_failure_rolls_back vanishingEnv sampleWorld (sampleCall 7)
      (fun a h => by
        have hw : (postAddress vanishingEnv sampleWorld (sampleCall 7)).2.written =
            [⟨ErrorCode.ErrorInternal, none⟩] := by decide
        rw [hw] at h
        simp [sampleCall] at h)).2.1⟩

end Web
